import Mathlib

/-!
Shallow embedding of the "Rooms" level generator (rooms.py) together with
proofs about the specification claims for it.

Modelling conventions:
  - Python integers become Int; numpy arrays of cell codes and of door
    booleans become total functions from integer points (array shapes are
    recorded by separate bound predicates, and all proved accesses stay in
    bounds, so the value of a function outside its array bounds is never
    relevant).
  - The process wide random generator becomes an explicitly threaded stream
    of natural numbers (RNG).  random.choice picks by index, random.random
    yields a rational in [0, 1), random.sample removes chosen elements one
    by one; each primitive consumes stream values deterministically, so a
    fixed stream plays the role of a fixed seeded generator state.
  - The float parameter chance becomes a rational number.
  - The two fallible operations, argument validation (ValueError) and
    list.remove on a missing element (also ValueError), are modelled with
    Except.  The unbounded while loops of the source get explicit fuel; the
    fuel values used are proved sufficient, and exhaustion is a separate
    error value that the sufficiency lemmas rule out.
-/

/-- Errors of the embedded program: Python ValueError with its message, plus
the artificial fuel-exhaustion marker used for the while loops. -/
inductive Err : Type where
  | valueError (msg : String) : Err
  | fuel : Err
  deriving DecidableEq

-- Directions (rooms.py lines 8-12)
def _LEFT : Nat := 0
def _RIGHT : Nat := 1
def _UP : Nat := 2
def _DOWN : Nat := 3

-- Cell codes (rooms.py lines 14-18)
def _EMPTY : Nat := 0
def _SPAWNER : Nat := 1
def _BODY : Nat := 2

abbrev _point : Type := Int × Int

abbrev _pfilter : Type := _point → Bool

/-- Pointwise update of a function-represented array at one index. -/
def updF (f : _point → α) (x : _point) (v : α) : _point → α :=
  fun y => if y = x then v else f y

/-- The bounds predicate behind _PointChecker, as a Prop. -/
def inB (w h : Int) (p : _point) : Prop :=
  0 ≤ p.1 ∧ p.1 < w ∧ 0 ≤ p.2 ∧ p.2 < h

instance (w h : Int) (p : _point) : Decidable (inB w h p) := by
  unfold inB; infer_instance

/-- rooms.py _PointChecker: checks if the point lays in bounds. -/
def _PointChecker (w h : Int) : _pfilter :=
  fun p => decide (inB w h p)

/-- rooms.py _Arrays: cells codes plus the two door arrays. -/
structure _Arrays where
  cells : _point → Nat
  hor_doors : _point → Bool
  ver_doors : _point → Bool

/-- rooms.py _get_nbr_points: all valid neighbor points. -/
def _get_nbr_points (p : _point) (filter_ : _pfilter) : List _point :=
  [(p.1 - 1, p.2), (p.1 + 1, p.2), (p.1, p.2 - 1), (p.1, p.2 + 1)].filter filter_

/-- rooms.py _get_nbr_points_n_dirs: valid neighbor points with directions. -/
def _get_nbr_points_n_dirs (p : _point) (filter_ : _pfilter) : List (_point × Nat) :=
  [((p.1 - 1, p.2), _LEFT), ((p.1 + 1, p.2), _RIGHT),
   ((p.1, p.2 - 1), _UP), ((p.1, p.2 + 1), _DOWN)].filter (fun pr => filter_ pr.1)

/-- rooms.py _get_nbr_dirs: directions pointing to valid neighbor points. -/
def _get_nbr_dirs (p : _point) (filter_ : _pfilter) : List Nat :=
  (_get_nbr_points_n_dirs p filter_).map (fun pr => pr.2)

/-- rooms.py _get_door: reads the door slot addressed by a point and a
direction from it.  A direction outside the four codes falls through all
branches of the source and yields Python None; that case is unreachable and
modelled by false. -/
def _get_door (p : _point) (dir : Nat) (data : _Arrays) : Bool :=
  if dir = _LEFT then data.hor_doors (p.1 - 1, p.2)
  else if dir = _RIGHT then data.hor_doors p
  else if dir = _UP then data.ver_doors (p.1, p.2 - 1)
  else if dir = _DOWN then data.ver_doors p
  else false

/-- rooms.py _set_door: writes the door slot addressed by a point and a
direction from it.  The four ifs of the source are mutually exclusive, so
the chain below is equivalent; an out-of-range direction changes nothing. -/
def _set_door (p : _point) (dir : Nat) (value : Bool) (data : _Arrays) : _Arrays :=
  if dir = _LEFT then { data with hor_doors := updF data.hor_doors (p.1 - 1, p.2) value }
  else if dir = _RIGHT then { data with hor_doors := updF data.hor_doors p value }
  else if dir = _UP then { data with ver_doors := updF data.ver_doors (p.1, p.2 - 1) value }
  else if dir = _DOWN then { data with ver_doors := updF data.ver_doors p value }
  else data

/-- Directions computed inside rooms.py _wire: directions of valid neighbor
points currently holding a _SPAWNER. -/
def wireDirs (p : _point) (data : _Arrays) (filter_ : _pfilter) : List Nat :=
  ((_get_nbr_points_n_dirs p filter_).filter
    (fun pr => data.cells pr.1 == _SPAWNER)).map (fun pr => pr.2)

/-- rooms.py _wire: opens the doors from the head at p toward every adjacent
spawner cell. -/
def _wire (p : _point) (data : _Arrays) (filter_ : _pfilter) : _Arrays :=
  (wireDirs p data filter_).foldl (fun d dir => _set_door p dir true d) data

/-- The explicitly threaded replacement for the process wide random
generator: a stream of natural numbers with a cursor encoded by dropping
consumed values from the front. -/
structure RNG where
  seq : Nat → Nat

def RNG.tail (r : RNG) : RNG := ⟨fun n => r.seq (n + 1)⟩

/-- Splits a list at an index: the element there and the list without it.
Total, with a default for the unreachable out-of-range case. -/
def pickAt [Inhabited α] : List α → Nat → α × List α
  | [], _ => (default, [])
  | x :: xs, 0 => (x, xs)
  | x :: xs, n + 1 =>
    match pickAt xs n with
    | (y, ys) => (y, x :: ys)

/-- Model of random.choice: pick an element by reducing one stream value
modulo the list length.  Called only on nonempty lists in the program. -/
def randChoice [Inhabited α] (l : List α) (r : RNG) : α × RNG :=
  match pickAt l (r.seq 0 % l.length) with
  | (x, _) => (x, r.tail)

/-- Model of random.random: a rational in [0, 1) obtained from one stream
value. -/
def randFloat (r : RNG) : Rat × RNG :=
  (mkRat (Int.ofNat (r.seq 0 % 1000)) 1000, r.tail)

/-- Model of random.sample on a list: repeatedly pick an element by index
and remove it.  The program only calls it with a size not exceeding the
list length. -/
def randSample (l : List _point) (k : Nat) (r : RNG) : List _point × RNG :=
  match k with
  | 0 => ([], r)
  | k + 1 =>
    if l.isEmpty then ([], r)
    else
      match pickAt l (r.seq 0 % l.length) with
      | (x, others) =>
        match randSample others k r.tail with
        | (rest, r2) => (x :: rest, r2)

/-- Lexicographically strict order on points, matching how Python sorts
pairs of ints. -/
def ptLt (a b : _point) : Bool :=
  a.1 < b.1 || (a.1 == b.1 && a.2 < b.2)

/-- Ordered insertion without duplicates: together with starting from the
empty list this realizes sorted(set(...)) for the vacancy set. -/
def insertPt (x : _point) : List _point → List _point
  | [] => [x]
  | y :: ys => if x = y then y :: ys else if ptLt x y then x :: y :: ys else y :: insertPt x ys

/-- One round of the vacancy update of rooms.py generate lines 422-430: for
every spawner, insert its in-bounds empty neighbors into the vacancy set. -/
def updateVacancies (spawners : List _point) (cells : _point → Nat)
    (filter_ : _pfilter) (vac : List _point) : List _point :=
  spawners.foldl
    (fun v s =>
      (((_get_nbr_points s filter_).filter (fun c => cells c == _EMPTY)).foldl
        (fun v2 c => insertPt c v2) v))
    vac

/-- Model of Python list.remove: drop the first occurrence, ValueError when
the element is absent. -/
def pyRemove (l : List Nat) (x : Nat) : Except Err (List Nat) :=
  if x ∈ l then .ok (l.erase x)
  else .error (.valueError "list.remove(x): x not in list")

/-- The first-open-door scan of rooms.py lines 236-244.  Returns none when a
second open door is found (the source returns None from the function), and
some acc when the loop runs to the end with acc the first open door found,
if any. -/
def findFirstDoor (p : _point) (data : _Arrays) :
    List Nat → Option Nat → Option (Option Nat)
  | [], acc => some acc
  | d :: ds, acc =>
    if _get_door p d data then
      match acc with
      | some _ => none
      | none => findFirstDoor p data ds (some d)
    else findFirstDoor p data ds acc

/-- The extra-wiring while loop of rooms.py lines 255-258: while directions
remain and a fresh random draw stays at or below chance, open the door of a
randomly chosen remaining direction.  Fuel is the length of dirs, which the
loop strictly decreases. -/
def extraWires (fuel : Nat) (dirs : List Nat) (p : _point) (chance : Rat)
    (data : _Arrays) (r : RNG) : _Arrays × RNG :=
  match fuel with
  | 0 => (data, r)
  | fuel + 1 =>
    if dirs.length > 0 then
      let (q, r1) := randFloat r
      if q ≤ chance then
        let (choice, r2) := randChoice dirs r1
        let data1 := _set_door p choice true data
        extraWires fuel (dirs.erase choice) p chance data1 r2
      else (data, r1)
    else (data, r)

/-- The neighbor pairs with a _BODY cell, computed at rooms.py lines 225-229. -/
def bodyPairs (p : _point) (data : _Arrays) (filter_ : _pfilter) : List (_point × Nat) :=
  (_get_nbr_points_n_dirs p filter_).filter (fun pr => data.cells pr.1 == _BODY)

/-- The directions toward neighboring _BODY cells (rooms.py lines 225-229). -/
def bodyDirs (p : _point) (data : _Arrays) (filter_ : _pfilter) : List Nat :=
  (bodyPairs p data filter_).map (fun pr => pr.2)

/-- rooms.py _process_as_if_dead_end.  Returns the value the Python function
returns (None, True or False) together with the updated arrays and random
state, or the ValueError raised by dirs.remove(first) when first is None or
not in dirs. -/
def _process_as_if_dead_end (p : _point) (data : _Arrays) (filter_ : _pfilter)
    (chance : Rat) (r : RNG) : Except Err (Option Bool × _Arrays × RNG) :=
  if data.cells p == _BODY then
    let dirs := bodyDirs p data filter_
    if dirs.length == 1 then .ok (some true, data, r)
    else
      match findFirstDoor p data dirs none with
      | none => .ok (none, data, r)
      | some none => .error (.valueError "list.remove(x): x not in list")
      | some (some first) =>
        match pyRemove dirs first with
        | .error e => .error e
        | .ok dirs1 =>
          let (choice, r1) := randChoice dirs1 r
          let data1 := _set_door p choice true data
          let dirs2 := dirs1.erase choice
          let (data2, r2) := extraWires dirs2.length dirs2 p chance data1 r1
          .ok (some false, data2, r2)
  else .ok (none, data, r)

/-- rooms.py _big_cell_filter: a big cell may be placed when the four doors
inside the 2 by 2 block below-right of the point are all open. -/
def _big_cell_filter (p : _point) (data : _Arrays) : Bool :=
  data.hor_doors p && data.ver_doors p &&
  data.hor_doors (p.1, p.2 + 1) && data.ver_doors (p.1 + 1, p.2)

/-- rooms.py _place_big_cell: empties the four member cells and closes the
four doors inside the block. -/
def _place_big_cell (p : _point) (data : _Arrays) : _Arrays :=
  { cells :=
      updF (updF (updF (updF data.cells p _EMPTY) (p.1 + 1, p.2) _EMPTY)
        (p.1, p.2 + 1) _EMPTY) (p.1 + 1, p.2 + 1) _EMPTY,
    hor_doors := updF (updF data.hor_doors p false) (p.1, p.2 + 1) false,
    ver_doors := updF (updF data.ver_doors p false) (p.1 + 1, p.2) false }

/-- rooms.py _difference. -/
def _difference (x y : Int) : Int :=
  if x < y then y - x else x - y

/-- rooms.py _max_point_difference: Chebyshev distance of two points. -/
def _max_point_difference (a b : _point) : Int :=
  max (_difference a.1 b.1) (_difference a.2 b.2)

/-- Enumeration of itertools.product(range(a), range(b)) as integer points,
in the same x-major order. -/
def prodPoints (a b : Int) : List _point :=
  (List.range a.toNat).foldr
    (fun (xn : Nat) acc =>
      ((List.range b.toNat).map (fun (yn : Nat) => ((xn : Int), (yn : Int)))) ++ acc) []

/-- The final result of generation: occupied mask, big-cell mask, the two
door arrays and the chest list (rooms.py _finish lines 357-363). -/
structure Result where
  cells : _point → Bool
  big_cells : _point → Bool
  hor_doors : _point → Bool
  ver_doors : _point → Bool
  chests : List _point

instance : Inhabited Result :=
  ⟨⟨fun _ => false, fun _ => false, fun _ => false, fun _ => false, []⟩⟩

/-- The dead-end pass of rooms.py _finish lines 324-328: process every grid
cell in scan order, collecting the cells reported as dead ends. -/
def deadEndPass (pts : List _point) (data : _Arrays) (filter_ : _pfilter)
    (chance : Rat) (r : RNG) (chests : List _point) :
    Except Err (List _point × _Arrays × RNG) :=
  match pts with
  | [] => .ok (chests, data, r)
  | cell :: rest =>
    match _process_as_if_dead_end cell data filter_ chance r with
    | .error e => .error e
    | .ok (b, data1, r1) =>
      deadEndPass rest data1 filter_ chance r1
        (if b = some true then chests.concat cell else chests)

/-- The big-cell placement while loop of rooms.py _finish lines 340-350.
Fuel is the length of the current candidate list, which every iteration
strictly decreases because the chosen candidate filters itself out. -/
def mergeLoop (fuel : Nat) (p_big_cells : List _point) (big_cells : _point → Bool)
    (data : _Arrays) (r : RNG) :
    Except Err ((_point → Bool) × _Arrays × RNG) :=
  match fuel with
  | 0 =>
    if p_big_cells.isEmpty then .ok (big_cells, data, r) else .error .fuel
  | fuel + 1 =>
    if p_big_cells.isEmpty then .ok (big_cells, data, r)
    else
      let (choice, r1) := randChoice p_big_cells r
      let data1 := _place_big_cell choice data
      let big1 := updF big_cells choice true
      let remaining := p_big_cells.filter (fun cell => 1 < _max_point_difference cell choice)
      mergeLoop fuel remaining big1 data1 r1

/-- rooms.py _finish: dead-end pass, big-cell placement, then conversion of
the cell codes into the occupied boolean mask. -/
def _finish (w h : Int) (data : _Arrays) (filter_ : _pfilter) (chance : Rat)
    (r : RNG) : Except Err Result :=
  match deadEndPass (prodPoints w h) data filter_ chance r [] with
  | .error e => .error e
  | .ok (chests, data1, r1) =>
    let p_big_cells := (prodPoints (w - 1) (h - 1)).filter (fun cell => _big_cell_filter cell data1)
    match mergeLoop p_big_cells.length p_big_cells (fun _ => false) data1 r1 with
    | .error e => .error e
    | .ok (big_cells, data2, _) =>
      .ok { cells := fun p => data2.cells p == _BODY,
            big_cells := big_cells,
            hor_doors := data2.hor_doors,
            ver_doors := data2.ver_doors,
            chests := chests }

/-- Marks every listed cell _BODY (the spawner-conversion loops of rooms.py
generate lines 435-436 and 451-452). -/
def setBody (cells : _point → Nat) (ps : List _point) : _point → Nat :=
  ps.foldl (fun cs p => updF cs p _BODY) cells

/-- Marks every listed cell _SPAWNER (rooms.py generate lines 457-458). -/
def setSpawner (cells : _point → Nat) (ps : List _point) : _point → Nat :=
  ps.foldl (fun cs p => updF cs p _SPAWNER) cells

/-- The while True wave-growth loop of rooms.py generate lines 421-460, with
explicit fuel.  Vacancies are recomputed from the empty set each iteration,
which matches the source where the set is cleared at the end of every
iteration. -/
def waveLoop (w h : Int) (chance : Rat) (c : Int) (filter_ : _pfilter) :
    Nat → _Arrays → List _point → RNG → Except Err Result
  | 0, _, _, _ => .error .fuel
  | fuel + 1, data, spawners, r =>
    let vacancies := updateVacancies spawners data.cells filter_ []
    if vacancies.length == 0 then
      _finish w h { data with cells := setBody data.cells spawners } filter_ chance r
    else
      let (heads, r1) :=
        if (vacancies.length : Int) > c then randSample vacancies c.toNat r
        else (vacancies, r)
      let data1 := heads.foldl (fun d hd => _wire hd d filter_) data
      let cells2 := setBody data1.cells spawners
      let cells3 := setSpawner cells2 heads
      waveLoop w h chance c filter_ fuel { data1 with cells := cells3 } heads r1

/-- The arrays as allocated by rooms.py generate lines 403-414: all cells
empty except the epicenter spawner, all doors closed. -/
def initArrays (px py : Int) : _Arrays :=
  { cells := updF (fun _ => _EMPTY) (px, py) _SPAWNER,
    hor_doors := fun _ => false,
    ver_doors := fun _ => false }

/-- rooms.py generate: validation followed by the wave-growth loop.  The
fuel w * h + 2 is sufficient: with c at least 1 the loop needs at most
w * h iterations, and with c = 0 it stops after at most two. -/
def generate (w h px py : Int) (chance : Rat) (c : Int) (r : RNG) :
    Except Err Result :=
  if w ≤ 0 then .error (.valueError "w must be positive")
  else if h ≤ 0 then .error (.valueError "h must be positive")
  else if ¬(0 ≤ px ∧ px < w) then .error (.valueError "0 <= px < w must be True")
  else if ¬(0 ≤ py ∧ py < h) then .error (.valueError "0 <= py < h must be True")
  else if ¬(0 < chance ∧ chance < 1) then .error (.valueError "0.0 < chance < 1.0 must be True")
  else if c < 0 then .error (.valueError "c can not be negative")
  else
    waveLoop w h chance c (_PointChecker w h) ((w * h).toNat + 2)
      (initArrays px py) [(px, py)] r

/-- The default chance parameter 0.35 of the source, as a rational. -/
def c35 : Rat := mkRat 7 20

/-- The all-zero random stream, used for concrete runs. -/
def rngZero : RNG := ⟨fun _ => 0⟩

/-- Extracts the result of a successful generation (default result
otherwise); used to state facts about concrete runs. -/
def resOrDefault (e : Except Err Result) : Result :=
  match e with
  | .ok res => res
  | .error _ => default

/-! ### Basic evaluation and membership lemmas -/

theorem updF_eval (f : _point → α) (x : _point) (v : α) (y : _point) :
    updF f x v y = if y = x then v else f y := rfl

theorem updF_self (f : _point → α) (x : _point) (v : α) :
    updF f x v x = v := by
  simp [updF]

theorem updF_ne (f : _point → α) (x : _point) (v : α) {y : _point} (h : y ≠ x) :
    updF f x v y = f y := by
  simp [updF, h]

theorem PointChecker_eq_true_iff (w h : Int) (p : _point) :
    _PointChecker w h p = true ↔ inB w h p := by
  simp [_PointChecker]

theorem setBody_eval (cells : _point → Nat) (ps : List _point) (p : _point) :
    setBody cells ps p = if p ∈ ps then _BODY else cells p := by
  induction ps generalizing cells with
  | nil => simp [setBody]
  | cons q qs ih =>
    show setBody (updF cells q _BODY) qs p = _
    rw [ih]
    simp only [updF_eval, List.mem_cons]
    by_cases h1 : p ∈ qs
    · simp [h1]
    · by_cases h2 : p = q <;> simp [h1, h2]

theorem setSpawner_eval (cells : _point → Nat) (ps : List _point) (p : _point) :
    setSpawner cells ps p = if p ∈ ps then _SPAWNER else cells p := by
  induction ps generalizing cells with
  | nil => simp [setSpawner]
  | cons q qs ih =>
    show setSpawner (updF cells q _SPAWNER) qs p = _
    rw [ih]
    simp only [updF_eval, List.mem_cons]
    by_cases h1 : p ∈ qs
    · simp [h1]
    · by_cases h2 : p = q <;> simp [h1, h2]

theorem mem_insertPt {x a : _point} {l : List _point} :
    a ∈ insertPt x l ↔ a = x ∨ a ∈ l := by
  induction l with
  | nil => simp [insertPt]
  | cons y ys ih =>
    show a ∈ (if x = y then y :: ys else if ptLt x y then x :: y :: ys else y :: insertPt x ys) ↔ _
    by_cases h1 : x = y
    · rw [if_pos h1]
      subst h1
      simp only [List.mem_cons]
      tauto
    · rw [if_neg h1]
      by_cases h2 : ptLt x y = true
      · rw [if_pos h2]
        simp only [List.mem_cons]
      · rw [if_neg h2]
        simp only [List.mem_cons, ih]
        tauto

theorem mem_foldl_insertPt (l : List _point) (v : List _point) (a : _point) :
    a ∈ l.foldl (fun v2 c => insertPt c v2) v ↔ a ∈ v ∨ a ∈ l := by
  induction l generalizing v with
  | nil => simp
  | cons c cs ih =>
    rw [List.foldl_cons, ih]
    simp only [mem_insertPt, List.mem_cons]
    tauto

theorem mem_updateVacancies (spawners : List _point) (cells : _point → Nat)
    (filter_ : _pfilter) (vac : List _point) (a : _point) :
    a ∈ updateVacancies spawners cells filter_ vac ↔
      a ∈ vac ∨ ∃ s ∈ spawners, a ∈ _get_nbr_points s filter_ ∧ cells a = _EMPTY := by
  induction spawners generalizing vac with
  | nil => simp [updateVacancies]
  | cons s ss ih =>
    rw [show updateVacancies (s :: ss) cells filter_ vac =
        updateVacancies ss cells filter_
          (((_get_nbr_points s filter_).filter (fun c => cells c == _EMPTY)).foldl
            (fun v2 c => insertPt c v2) vac) from rfl, ih]
    rw [mem_foldl_insertPt]
    simp only [List.mem_filter, beq_iff_eq, List.mem_cons]
    constructor
    · rintro ((hv | ⟨hn, he⟩) | ⟨t, ht, hn, he⟩)
      · exact Or.inl hv
      · exact Or.inr ⟨s, Or.inl rfl, hn, he⟩
      · exact Or.inr ⟨t, Or.inr ht, hn, he⟩
    · rintro (hv | ⟨t, (rfl | ht), hn, he⟩)
      · exact Or.inl (Or.inl hv)
      · exact Or.inl (Or.inr ⟨hn, he⟩)
      · exact Or.inr ⟨t, ht, hn, he⟩

theorem mem_get_nbr_points {p q : _point} {filter_ : _pfilter} :
    q ∈ _get_nbr_points p filter_ ↔
      (q = (p.1 - 1, p.2) ∨ q = (p.1 + 1, p.2) ∨ q = (p.1, p.2 - 1) ∨ q = (p.1, p.2 + 1)) ∧
        filter_ q = true := by
  simp only [_get_nbr_points, List.mem_filter, List.mem_cons, List.not_mem_nil, or_false]

theorem mem_prodPoints_aux (xs : List Nat) (bt : Nat) (p : _point) :
    p ∈ xs.foldr
        (fun (xn : Nat) acc =>
          ((List.range bt).map (fun (yn : Nat) => ((xn : Int), (yn : Int)))) ++ acc) [] ↔
      ∃ xn ∈ xs, ∃ yn, yn < bt ∧ p = ((xn : Int), (yn : Int)) := by
  induction xs with
  | nil => simp
  | cons x xs ih =>
    rw [List.foldr_cons, List.mem_append, ih]
    simp only [List.mem_map, List.mem_range, List.mem_cons]
    constructor
    · rintro (⟨yn, hy, rfl⟩ | ⟨xn, hx, yn, hy, rfl⟩)
      · exact ⟨x, Or.inl rfl, yn, hy, rfl⟩
      · exact ⟨xn, Or.inr hx, yn, hy, rfl⟩
    · rintro ⟨xn, (rfl | hx), yn, hy, rfl⟩
      · exact Or.inl ⟨yn, hy, rfl⟩
      · exact Or.inr ⟨xn, hx, yn, hy, rfl⟩

theorem mem_prodPoints {a b : Int} {p : _point} :
    p ∈ prodPoints a b ↔ 0 ≤ p.1 ∧ p.1 < a ∧ 0 ≤ p.2 ∧ p.2 < b := by
  rw [prodPoints, mem_prodPoints_aux]
  constructor
  · rintro ⟨xn, hx, yn, hy, rfl⟩
    rw [List.mem_range] at hx
    refine ⟨Int.ofNat_nonneg xn, ?_, Int.ofNat_nonneg yn, ?_⟩ <;> omega
  · rintro ⟨h1, h2, h3, h4⟩
    refine ⟨p.1.toNat, ?_, p.2.toNat, ?_, ?_⟩
    · rw [List.mem_range]
      omega
    · omega
    · obtain ⟨px, py⟩ := p
      simp only at h1 h3
      rw [Prod.mk.injEq]
      constructor <;> omega

/-! ### Notions used to state the claims -/

/-- The four structurally adjacent points of a point. -/
def nbrPts (p : _point) : List _point :=
  [(p.1 - 1, p.2), (p.1 + 1, p.2), (p.1, p.2 - 1), (p.1, p.2 + 1)]

/-- Number of structurally adjacent occupied neighbors in the final output. -/
def occNbrCount (res : Result) (p : _point) : Nat :=
  (nbrPts p).countP (fun q => res.cells q)

/-- The four member cells of the 2 by 2 block with upper left corner t. -/
def blockPts (t : _point) : List _point :=
  [t, (t.1 + 1, t.2), (t.1, t.2 + 1), (t.1 + 1, t.2 + 1)]

/-- A point absorbed by some placed big cell of the mask. -/
def covered (mask : _point → Bool) (p : _point) : Prop :=
  ∃ t, mask t = true ∧ p ∈ blockPts t

/-- Occupied in the final output, or absorbed into a placed big room. -/
def occOrCov (res : Result) (p : _point) : Prop :=
  res.cells p = true ∨ covered res.big_cells p

/-- Claim C3 as stated: every open door connects two occupied cells. -/
def c3Holds (res : Result) : Prop :=
  (∀ t : _point, res.hor_doors t = true →
    res.cells t = true ∧ res.cells (t.1 + 1, t.2) = true) ∧
  (∀ t : _point, res.ver_doors t = true →
    res.cells t = true ∧ res.cells (t.1, t.2 + 1) = true)

/-- Open-door adjacency between two occupied cells of the final output. -/
def adjRes (res : Result) (p q : _point) : Prop :=
  res.cells p = true ∧ res.cells q = true ∧
    ((res.hor_doors p = true ∧ q = (p.1 + 1, p.2)) ∨
     (res.hor_doors q = true ∧ p = (q.1 + 1, q.2)) ∨
     (res.ver_doors p = true ∧ q = (p.1, p.2 + 1)) ∨
     (res.ver_doors q = true ∧ p = (q.1, q.2 + 1)))

/-- Reachability inside the occupied set along open doors. -/
inductive ReachRes (res : Result) : _point → _point → Prop where
  | refl (p : _point) : ReachRes res p p
  | tail {p q r : _point} : ReachRes res p q → adjRes res q r → ReachRes res p r

/-- Claim C4 as stated: the occupied cells form one door-connected component,
and no occupied cell is isolated. -/
def c4Holds (res : Result) : Prop :=
  (∀ p q : _point, res.cells p = true → res.cells q = true → ReachRes res p q) ∧
  (∀ p : _point, res.cells p = true → ∃ q, adjRes res p q)

/-- Claim C5 as stated: every chest has exactly one structurally adjacent
occupied neighbor in the final output. -/
def c5Holds (res : Result) : Prop :=
  ∀ p ∈ res.chests, occNbrCount res p = 1

/-- Executable form of the adjacency test of adjRes, door part only. -/
def doorBetween (res : Result) (p q : _point) : Bool :=
  (res.hor_doors p && decide (q = (p.1 + 1, p.2))) ||
  (res.hor_doors q && decide (p = (q.1 + 1, q.2))) ||
  (res.ver_doors p && decide (q = (p.1, p.2 + 1))) ||
  (res.ver_doors q && decide (p = (q.1, q.2 + 1)))

/-- Executable test that an occupied cell has no open door to any occupied
neighbor. -/
def isolatedAt (res : Result) (p : _point) : Bool :=
  res.cells p && (nbrPts p).all (fun q => !(res.cells q && doorBetween res p q))

/-- A scrambled counting stream; seeds select concrete runs exhibited in the
counterexamples below. -/
def streamOf (seed : Nat) : RNG :=
  ⟨fun n => (2654435761 * (seed + 1) + 1013904223 * (n + 1)
      + 40503 * seed * (n + 1) * (n + 1)) % 1000003⟩

theorem adjRes_nbr {res : Result} {p q : _point} (h : adjRes res p q) :
    q ∈ nbrPts p ∧ res.cells q = true ∧ doorBetween res p q = true := by
  obtain ⟨hp, hq, hd⟩ := h
  refine ⟨?_, hq, ?_⟩
  · rcases hd with ⟨_, rfl⟩ | ⟨_, hpq⟩ | ⟨_, rfl⟩ | ⟨_, hpq⟩
    · simp [nbrPts]
    · have : q = (p.1 - 1, p.2) := by
        obtain ⟨qx, qy⟩ := q
        rw [hpq]
        simp
      rw [this]
      simp [nbrPts]
    · simp [nbrPts]
    · have : q = (p.1, p.2 - 1) := by
        obtain ⟨qx, qy⟩ := q
        rw [hpq]
        simp
      rw [this]
      simp [nbrPts]
  · rw [doorBetween]
    rcases hd with ⟨hdoor, hh⟩ | ⟨hdoor, hh⟩ | ⟨hdoor, hh⟩ | ⟨hdoor, hh⟩ <;>
      simp [hdoor, hh]

theorem no_adj_of_isolatedAt {res : Result} {p : _point}
    (hiso : isolatedAt res p = true) : ¬ ∃ q, adjRes res p q := by
  rintro ⟨q, hadj⟩
  obtain ⟨hqn, hqc, hqd⟩ := adjRes_nbr hadj
  rw [isolatedAt, Bool.and_eq_true, List.all_eq_true] at hiso
  have := hiso.2 q hqn
  rw [hqc, hqd] at this
  simp at this

/-! ### Claims C1, C2, C6, C8 and the counterexamples for C3, C4, C5 -/

/-- C1: the spec claims generate(1, 1, 0, 0) succeeds and returns the one
cell layout, but the code raises ValueError: the dead-end pass reaches the
single body cell, finds an empty neighbor-direction list, and executes
dirs.remove(first) with first still None.  The run fails this way for every
random stream. -/
theorem c1_minimal_case_crashes (r : RNG) :
    generate 1 1 0 0 c35 3 r = .error (.valueError "list.remove(x): x not in list") := rfl

/-- C2: the spec claims that once validation passes the algorithm cannot
fail, explicitly including c = 0; but with c = 0 on any grid wider than one
cell the wave stops after one iteration, leaving the epicenter as a body
cell without body neighbors, and the dead-end pass then raises ValueError
from dirs.remove(first) with first = None, for every random stream. -/
theorem c2_validated_run_crashes (r : RNG) :
    generate 2 1 0 0 c35 0 r = .error (.valueError "list.remove(x): x not in list") := rfl

/-- C6: each invalid argument is rejected synchronously with the ValueError
of the first failing check in source order, identifying the cause; no result
is produced.  The six conjuncts cover the six checks. -/
theorem c6_validation (w h px py : Int) (chance : Rat) (c : Int) (r : RNG) :
    (w ≤ 0 → generate w h px py chance c r = .error (.valueError "w must be positive")) ∧
    (0 < w → h ≤ 0 → generate w h px py chance c r = .error (.valueError "h must be positive")) ∧
    (0 < w → 0 < h → ¬(0 ≤ px ∧ px < w) →
      generate w h px py chance c r = .error (.valueError "0 <= px < w must be True")) ∧
    (0 < w → 0 < h → (0 ≤ px ∧ px < w) → ¬(0 ≤ py ∧ py < h) →
      generate w h px py chance c r = .error (.valueError "0 <= py < h must be True")) ∧
    (0 < w → 0 < h → (0 ≤ px ∧ px < w) → (0 ≤ py ∧ py < h) → ¬(0 < chance ∧ chance < 1) →
      generate w h px py chance c r = .error (.valueError "0.0 < chance < 1.0 must be True")) ∧
    (0 < w → 0 < h → (0 ≤ px ∧ px < w) → (0 ≤ py ∧ py < h) → (0 < chance ∧ chance < 1) →
      c < 0 → generate w h px py chance c r = .error (.valueError "c can not be negative")) := by
  refine ⟨?_, ?_, ?_, ?_, ?_, ?_⟩
  · intro h1
    rw [generate, if_pos h1]
  · intro h1 h2
    rw [generate, if_neg (by omega), if_pos h2]
  · intro h1 h2 h3
    rw [generate, if_neg (by omega), if_neg (by omega), if_pos h3]
  · intro h1 h2 h3 h4
    rw [generate, if_neg (by omega), if_neg (by omega), if_neg (not_not_intro h3), if_pos h4]
  · intro h1 h2 h3 h4 h5
    rw [generate, if_neg (by omega), if_neg (by omega), if_neg (not_not_intro h3),
      if_neg (not_not_intro h4), if_pos h5]
  · intro h1 h2 h3 h4 h5 h6
    rw [generate, if_neg (by omega), if_neg (by omega), if_neg (not_not_intro h3),
      if_neg (not_not_intro h4), if_neg (not_not_intro h5), if_pos h6]

theorem c6_validation_witness :
    generate 0 5 0 0 c35 3 rngZero = .error (.valueError "w must be positive") ∧
    generate 5 5 5 0 c35 3 rngZero = .error (.valueError "0 <= px < w must be True") ∧
    generate 5 5 0 0 1 3 rngZero = .error (.valueError "0.0 < chance < 1.0 must be True") ∧
    generate 5 5 0 0 c35 (-1) rngZero = .error (.valueError "c can not be negative") :=
  ⟨(c6_validation 0 5 0 0 c35 3 rngZero).1 (by decide),
   (c6_validation 5 5 5 0 c35 3 rngZero).2.2.1 (by decide) (by decide) (by decide),
   (c6_validation 5 5 0 0 1 3 rngZero).2.2.2.2.1 (by decide) (by decide) (by decide)
     (by decide) (by decide),
   (c6_validation 5 5 0 0 c35 (-1) rngZero).2.2.2.2.2 (by decide) (by decide) (by decide)
     (by decide) (by decide) (by decide)⟩

/-- C8: the random state is the only implicit input of the source function;
in the embedding it is explicit, and two invocations with identical
parameters and identical random state give identical results, hence
identical occupied masks, big-cell masks, door arrays and chest lists. -/
theorem c8_determinism (w h px py : Int) (chance : Rat) (c : Int) (r1 r2 : RNG)
    (hr : r1 = r2) :
    generate w h px py chance c r1 = generate w h px py chance c r2 := by
  rw [hr]

theorem c8_determinism_witness :
    generate 2 3 0 0 c35 2 rngZero = generate 2 3 0 0 c35 2 rngZero :=
  c8_determinism 2 3 0 0 c35 2 rngZero rngZero rfl

/-- C3 counterexample: in the run generate(2, 3, 0, 0) with c = 2 on the
all-zero stream, the big cell at (0, 0) absorbs cell (0, 1) and empties it,
while the vertical door at (0, 1), which connects (0, 1) to (0, 2), stays
open: an open door whose lower cell is not occupied. -/
theorem c3_counterexample :
    ¬ c3Holds (resOrDefault (generate 2 3 0 0 c35 2 rngZero)) := by
  intro hc
  have h1 : (resOrDefault (generate 2 3 0 0 c35 2 rngZero)).ver_doors (0, 1) = true := by decide
  have h2 := (hc.2 (0, 1) h1).1
  have h3 : (resOrDefault (generate 2 3 0 0 c35 2 rngZero)).cells (0, 1) = false := by decide
  rw [h2] at h3
  exact Bool.noConfusion h3

/-- C4 counterexample: in the run generate(4, 3, 0, 0) with c = 2 on the
stream of seed 28, the two big cells absorb every door neighbor of the
occupied cell (1, 2), so (1, 2) is an occupied cell isolated under the
open-door adjacency of the occupied set. -/
theorem c4_counterexample :
    ¬ c4Holds (resOrDefault (generate 4 3 0 0 c35 2 (streamOf 28))) := by
  intro hc
  have hocc : (resOrDefault (generate 4 3 0 0 c35 2 (streamOf 28))).cells (1, 2) = true := by
    decide
  have hiso : isolatedAt (resOrDefault (generate 4 3 0 0 c35 2 (streamOf 28))) (1, 2) = true := by
    decide
  exact no_adj_of_isolatedAt hiso (hc.2 (1, 2) hocc)

/-- C5 counterexample: in the run generate(5, 5, 0, 0) with c = 3 on the
stream of seed 25, the cell (0, 4) is listed as a chest, but its only
structural neighbor that was occupied got absorbed by the big cell at
(1, 3), so at generation end it has zero occupied neighbors, not one. -/
theorem c5_counterexample :
    ¬ c5Holds (resOrDefault (generate 5 5 0 0 c35 3 (streamOf 25))) := by
  intro hc
  have h1 : (0, 4) ∈ (resOrDefault (generate 5 5 0 0 c35 3 (streamOf 25))).chests := by decide
  have h2 := hc (0, 4) h1
  have h3 : occNbrCount (resOrDefault (generate 5 5 0 0 c35 3 (streamOf 25))) (0, 4) = 0 := by
    decide
  omega

/-! ### Claim C10 -/

/-- Index range of the horizontal door array of shape (w-1, h). -/
def horSlotIn (w h : Int) (q : _point) : Prop :=
  0 ≤ q.1 ∧ q.1 ≤ w - 2 ∧ 0 ≤ q.2 ∧ q.2 ≤ h - 1

/-- Index range of the vertical door array of shape (w, h-1). -/
def verSlotIn (w h : Int) (q : _point) : Prop :=
  0 ≤ q.1 ∧ q.1 ≤ w - 1 ∧ 0 ≤ q.2 ∧ q.2 ≤ h - 2

/-- C10: every door access of the program passes a direction obtained from
the in-bounds-filtered neighbor enumeration of the same in-bounds point
(this is how _wire and _process_as_if_dead_end build their direction lists),
and for such a direction the translated door index, including the minus one
translation of LEFT and UP, lies inside the horizontal array bounds
[0, w-2] x [0, h-1] respectively the vertical array bounds
[0, w-1] x [0, h-2]; in particular it is never negative, so the numpy
wrap-around for negative indices can never trigger. -/
theorem c10_door_index_bounds (w h : Int) (p : _point) (d : Nat)
    (hp : inB w h p) (hd : d ∈ _get_nbr_dirs p (_PointChecker w h)) :
    (d = _LEFT → horSlotIn w h (p.1 - 1, p.2)) ∧
    (d = _RIGHT → horSlotIn w h p) ∧
    (d = _UP → verSlotIn w h (p.1, p.2 - 1)) ∧
    (d = _DOWN → verSlotIn w h p) := by
  rw [_get_nbr_dirs, List.mem_map] at hd
  obtain ⟨pr, hpr, rfl⟩ := hd
  rw [_get_nbr_points_n_dirs, List.mem_filter] at hpr
  obtain ⟨hmem, hfil⟩ := hpr
  rw [PointChecker_eq_true_iff] at hfil
  obtain ⟨px, py⟩ := p
  simp only [inB] at hp
  simp only [List.mem_cons, List.not_mem_nil, or_false] at hmem
  rcases hmem with rfl | rfl | rfl | rfl <;>
    simp only [inB] at hfil <;>
    refine ⟨fun hdir => ?_, fun hdir => ?_, fun hdir => ?_, fun hdir => ?_⟩ <;>
    first
      | (simp only [horSlotIn, verSlotIn]
         refine ⟨?_, ?_, ?_, ?_⟩ <;> omega)
      | (revert hdir
         simp [_LEFT, _RIGHT, _UP, _DOWN])

theorem c10_door_index_bounds_witness :
    (_LEFT = _LEFT → horSlotIn 2 1 (0, 0)) ∧
    (_LEFT = _RIGHT → horSlotIn 2 1 (1, 0)) ∧
    (_LEFT = _UP → verSlotIn 2 1 (1, -1)) ∧
    (_LEFT = _DOWN → verSlotIn 2 1 (1, 0)) :=
  c10_door_index_bounds 2 1 (1, 0) _LEFT (by decide) (by decide)

/-! ### Door writes do not touch cells -/

theorem set_door_cells (p : _point) (dir : Nat) (v : Bool) (data : _Arrays) :
    (_set_door p dir v data).cells = data.cells := by
  rw [_set_door]
  repeat' split
  all_goals rfl

theorem wire_fold_cells (p : _point) (l : List Nat) (data : _Arrays) :
    (l.foldl (fun d dir => _set_door p dir true d) data).cells = data.cells := by
  induction l generalizing data with
  | nil => rfl
  | cons d ds ih => rw [List.foldl_cons, ih, set_door_cells]

theorem wire_cells (p : _point) (data : _Arrays) (filter_ : _pfilter) :
    (_wire p data filter_).cells = data.cells := wire_fold_cells p _ data

theorem wireAll_cells (heads : List _point) (data : _Arrays) (filter_ : _pfilter) :
    (heads.foldl (fun d hd => _wire hd d filter_) data).cells = data.cells := by
  induction heads generalizing data with
  | nil => rfl
  | cons x xs ih => rw [List.foldl_cons, ih, wire_cells]

/-! ### Selection lemmas -/

theorem pickAt_fst_mem [Inhabited α] (l : List α) (n : Nat) (h : n < l.length) :
    (pickAt l n).1 ∈ l := by
  induction l generalizing n with
  | nil => simp at h
  | cons x xs ih =>
    cases n with
    | zero => simp [pickAt]
    | succ n =>
      rw [show pickAt (x :: xs) (n + 1)
          = (match pickAt xs n with | (y, ys) => (y, x :: ys)) from rfl]
      rcases hp : pickAt xs n with ⟨y, ys⟩
      have hmem := ih n (by simpa using h)
      rw [hp] at hmem
      simp only [List.mem_cons]
      right
      simpa using hmem

theorem pickAt_snd_subset [Inhabited α] (l : List α) (n : Nat) :
    (pickAt l n).2 ⊆ l := by
  induction l generalizing n with
  | nil => simp [pickAt]
  | cons x xs ih =>
    cases n with
    | zero =>
      rw [show pickAt (x :: xs) 0 = (x, xs) from rfl]
      exact List.subset_cons_self x xs
    | succ n =>
      rw [show pickAt (x :: xs) (n + 1)
          = (match pickAt xs n with | (y, ys) => (y, x :: ys)) from rfl]
      rcases hp : pickAt xs n with ⟨y, ys⟩
      have hsub := ih n
      rw [hp] at hsub
      exact List.cons_subset_cons x hsub

theorem randChoice_fst_mem [Inhabited α] {l : List α} (r : RNG) (hl : l ≠ []) :
    (randChoice l r).1 ∈ l := by
  rw [randChoice]
  rcases hp : pickAt l (r.seq 0 % l.length) with ⟨x, rest⟩
  have hlen : r.seq 0 % l.length < l.length := by
    apply Nat.mod_lt
    cases l
    · exact absurd rfl hl
    · simp
  have hmem := pickAt_fst_mem l _ hlen
  rw [hp] at hmem
  simpa using hmem

theorem randSample_fst_subset (k : Nat) (l : List _point) (r : RNG) :
    (randSample l k r).1 ⊆ l := by
  induction k generalizing l r with
  | zero =>
    rw [randSample]
    simp
  | succ k ih =>
    rw [randSample]
    by_cases he : l.isEmpty
    · rw [if_pos he]
      simp
    · rw [if_neg he]
      rcases hp : pickAt l (r.seq 0 % l.length) with ⟨x, others⟩
      rcases hs : randSample others k r.tail with ⟨rest, r2⟩
      have hlen : r.seq 0 % l.length < l.length := by
        apply Nat.mod_lt
        cases l
        · simp at he
        · simp
      have hx := pickAt_fst_mem l _ hlen
      rw [hp] at hx
      have hothers := pickAt_snd_subset l (r.seq 0 % l.length)
      rw [hp] at hothers
      have hrest := ih others r.tail
      rw [hs] at hrest
      show (match randSample others k r.tail with
          | (rest, r2) => ((x :: rest : List _point), r2)).1 ⊆ l
      rw [hs]
      show x :: rest ⊆ l
      simp only at hx hothers hrest
      rw [List.cons_subset]
      exact ⟨hx, fun a ha => hothers (hrest ha)⟩

theorem randSample_fst_ne_nil (k : Nat) (l : List _point) (r : RNG)
    (hk : 1 ≤ k) (hl : l ≠ []) : (randSample l k r).1 ≠ [] := by
  cases k with
  | zero => omega
  | succ k =>
    rw [randSample]
    rw [if_neg (by simp [List.isEmpty_iff, hl])]
    rcases hp : pickAt l (r.seq 0 % l.length) with ⟨x, others⟩
    rcases hs : randSample others k r.tail with ⟨rest, r2⟩
    show (match randSample others k r.tail with
        | (rest, r2) => ((x :: rest : List _point), r2)).1 ≠ []
    rw [hs]
    simp

theorem length_filter_lt {p : α → Bool} {l : List α} {x : α}
    (hx : x ∈ l) (hpx : p x = false) : (l.filter p).length < l.length := by
  induction l with
  | nil => cases hx
  | cons a as ih =>
    rw [List.mem_cons] at hx
    rw [List.filter_cons]
    rcases hx with rfl | hx
    · rw [if_neg (by simp [hpx])]
      have := List.length_filter_le p as
      simp only [List.length_cons]
      omega
    · split
      · simp only [List.length_cons]
        have := ih hx
        omega
      · have := ih hx
        have h2 := List.length_filter_le p as
        simp only [List.length_cons]
        omega

theorem max_point_difference_self (a : _point) : _max_point_difference a a = 0 := by
  simp [_max_point_difference, _difference]

/-! ### The merge loop, dead-end pass and _finish never run out of fuel -/

theorem mergeLoop_ne_fuel (fuel : Nat) :
    ∀ (cands : List _point) (mask : _point → Bool) (data : _Arrays) (r : RNG),
      cands.length ≤ fuel → mergeLoop fuel cands mask data r ≠ .error .fuel := by
  induction fuel with
  | zero =>
    intro cands mask data r hle
    have hnil : cands = [] := List.length_eq_zero.mp (by omega)
    rw [mergeLoop, if_pos (by simp [hnil])]
    simp
  | succ fuel ih =>
    intro cands mask data r hle
    rw [mergeLoop]
    by_cases he : cands.isEmpty
    · rw [if_pos he]
      simp
    · rw [if_neg he]
      have hne : cands ≠ [] := by
        cases cands
        · simp at he
        · simp
      rcases hc : randChoice cands r with ⟨choice, r1⟩
      show mergeLoop fuel (cands.filter (fun cell => 1 < _max_point_difference cell choice))
          (updF mask choice true) (_place_big_cell choice data) r1 ≠ .error .fuel
      apply ih
      have hmem : choice ∈ cands := by
        have := randChoice_fst_mem r hne
        rw [hc] at this
        exact this
      have hflt := length_filter_lt (p := fun cell => decide (1 < _max_point_difference cell choice))
        hmem (by simp [max_point_difference_self])
      omega

theorem process_ne_fuel (p : _point) (data : _Arrays) (filter_ : _pfilter)
    (chance : Rat) (r : RNG) :
    _process_as_if_dead_end p data filter_ chance r ≠ .error .fuel := by
  rw [_process_as_if_dead_end]
  repeat' first | split | dsimp only
  all_goals
    first
      | (rename_i e heq
         rw [pyRemove] at heq
         split at heq
         · cases heq
         · injection heq with h
           rw [← h]
           simp)
      | simp

theorem deadEndPass_ne_fuel (pts : List _point) :
    ∀ (data : _Arrays) (filter_ : _pfilter) (chance : Rat) (r : RNG) (acc : List _point),
      deadEndPass pts data filter_ chance r acc ≠ .error .fuel := by
  induction pts with
  | nil =>
    intro data filter_ chance r acc
    rw [deadEndPass]
    simp
  | cons cell rest ih =>
    intro data filter_ chance r acc
    rw [deadEndPass]
    rcases hp : _process_as_if_dead_end cell data filter_ chance r with e | ⟨b, data1, r1⟩
    · have hne := process_ne_fuel cell data filter_ chance r
      rw [hp] at hne
      simpa using hne
    · exact ih data1 filter_ chance r1 _

theorem finish_ne_fuel (w h : Int) (data : _Arrays) (filter_ : _pfilter)
    (chance : Rat) (r : RNG) :
    _finish w h data filter_ chance r ≠ .error .fuel := by
  rw [_finish]
  rcases hp : deadEndPass (prodPoints w h) data filter_ chance r [] with e | ⟨chests, data1, r1⟩
  · have hne := deadEndPass_ne_fuel (prodPoints w h) data filter_ chance r []
    rw [hp] at hne
    simpa using hne
  · rcases hm : mergeLoop
        ((prodPoints (w - 1) (h - 1)).filter (fun cell => _big_cell_filter cell data1)).length
        ((prodPoints (w - 1) (h - 1)).filter (fun cell => _big_cell_filter cell data1))
        (fun _ => false) data1 r1 with e | ⟨big_cells, data2, r2⟩
    · have hne := mergeLoop_ne_fuel
        ((prodPoints (w - 1) (h - 1)).filter (fun cell => _big_cell_filter cell data1)).length
        ((prodPoints (w - 1) (h - 1)).filter (fun cell => _big_cell_filter cell data1))
        (fun _ => false) data1 r1 (le_refl _)
      rw [hm] at hne
      simpa [hm] using hne
    · simp [hm]

/-! ### The wave loop terminates: the empty-cell count strictly decreases -/

/-- The grid as a finite set of integer points. -/
def gridF (w h : Int) : Finset _point :=
  (Finset.Ico 0 w) ×ˢ (Finset.Ico 0 h)

/-- Number of grid cells currently _EMPTY. -/
def emptyCount (w h : Int) (cells : _point → Nat) : Nat :=
  ((gridF w h).filter (fun p => cells p = _EMPTY)).card

theorem mem_gridF {w h : Int} {p : _point} : p ∈ gridF w h ↔ inB w h p := by
  rw [gridF, Finset.mem_product, Finset.mem_Ico, Finset.mem_Ico, inB]
  tauto

theorem emptyCount_step (w h : Int) (cells : _point → Nat) (spawners heads : List _point)
    (hd : _point) (hhd : hd ∈ heads) (hin : inB w h hd) (hem : cells hd = _EMPTY) :
    emptyCount w h (setSpawner (setBody cells spawners) heads) < emptyCount w h cells := by
  apply Finset.card_lt_card
  have hsub : (gridF w h).filter (fun p => setSpawner (setBody cells spawners) heads p = _EMPTY)
      ⊆ (gridF w h).filter (fun p => cells p = _EMPTY) := by
    intro p hp
    rw [Finset.mem_filter] at hp ⊢
    refine ⟨hp.1, ?_⟩
    have hv := hp.2
    rw [setSpawner_eval] at hv
    split at hv
    · exact absurd hv (by decide)
    · rw [setBody_eval] at hv
      split at hv
      · exact absurd hv (by decide)
      · exact hv
  rw [Finset.ssubset_iff_of_subset hsub]
  refine ⟨hd, ?_, ?_⟩
  · rw [Finset.mem_filter]
    exact ⟨mem_gridF.mpr hin, hem⟩
  · rw [Finset.mem_filter]
    rintro ⟨-, hc⟩
    rw [setSpawner_eval, if_pos hhd] at hc
    exact absurd hc (by decide)

theorem waveLoop_ne_fuel (w h : Int) (chance : Rat) (c : Int) (hc : 1 ≤ c) (fuel : Nat) :
    ∀ (data : _Arrays) (spawners : List _point) (r : RNG),
      emptyCount w h data.cells < fuel →
      waveLoop w h chance c (_PointChecker w h) fuel data spawners r ≠ .error .fuel := by
  induction fuel with
  | zero =>
    intro data spawners r hcount
    omega
  | succ fuel ih =>
    intro data spawners r hcount
    rw [waveLoop]
    by_cases hvac : ((updateVacancies spawners data.cells (_PointChecker w h) []).length == 0) = true
    · rw [if_pos hvac]
      exact finish_ne_fuel w h _ _ chance r
    · rw [if_neg hvac]
      have hvne : updateVacancies spawners data.cells (_PointChecker w h) [] ≠ [] := by
        intro hnil
        rw [hnil] at hvac
        simp at hvac
      rcases hhd : if ((updateVacancies spawners data.cells (_PointChecker w h) []).length : Int) > c
          then randSample (updateVacancies spawners data.cells (_PointChecker w h) []) c.toNat r
          else (updateVacancies spawners data.cells (_PointChecker w h) [], r) with ⟨heads, r1⟩
      have hheads : heads ≠ [] ∧ heads ⊆ updateVacancies spawners data.cells (_PointChecker w h) [] := by
        by_cases hlen : ((updateVacancies spawners data.cells (_PointChecker w h) []).length : Int) > c
        · rw [if_pos hlen] at hhd
          constructor
          · have := randSample_fst_ne_nil c.toNat
              (updateVacancies spawners data.cells (_PointChecker w h) []) r (by omega) hvne
            rw [hhd] at this
            exact this
          · have := randSample_fst_subset c.toNat
              (updateVacancies spawners data.cells (_PointChecker w h) []) r
            rw [hhd] at this
            exact this
        · rw [if_neg hlen] at hhd
          injection hhd with h1 h2
          rw [← h1]
          exact ⟨hvne, fun a ha => ha⟩
      obtain ⟨hne, hsubv⟩ := hheads
      obtain ⟨hd, hhdmem⟩ := List.exists_mem_of_ne_nil heads hne
      have hhdv := hsubv hhdmem
      rw [mem_updateVacancies] at hhdv
      rcases hhdv with hfalse | ⟨s, hs, hnbr, hempty⟩
      · cases hfalse
      · rw [mem_get_nbr_points] at hnbr
        have hin : inB w h hd := (PointChecker_eq_true_iff w h hd).mp hnbr.2
        apply ih
        rw [show ({ (heads.foldl (fun d hd => _wire hd d (_PointChecker w h)) data) with
            cells := setSpawner (setBody (heads.foldl (fun d hd => _wire hd d (_PointChecker w h)) data).cells spawners) heads } : _Arrays).cells
            = setSpawner (setBody (heads.foldl (fun d hd => _wire hd d (_PointChecker w h)) data).cells spawners) heads from rfl]
        rw [wireAll_cells]
        have := emptyCount_step w h data.cells spawners heads hd hhdmem hin hempty
        omega

/-- C9: for any valid parameters with c at least 1, the wave-growth loop of
generate terminates within w * h iterations: run with fuel w * h it never
reaches the artificial fuel-exhaustion error, because every non-terminal
iteration spawns at least one head and thereby strictly decreases the
number of empty grid cells, which starts at w * h - 1. -/
theorem c9_growth_bound (w h px py : Int) (chance : Rat) (c : Int) (r : RNG)
    (hw : 1 ≤ w) (hh : 1 ≤ h) (hpx1 : 0 ≤ px) (hpx2 : px < w)
    (hpy1 : 0 ≤ py) (hpy2 : py < h) (hc : 1 ≤ c) :
    waveLoop w h chance c (_PointChecker w h) (w * h).toNat (initArrays px py) [(px, py)] r
      ≠ .error .fuel := by
  apply waveLoop_ne_fuel w h chance c hc
  obtain ⟨W, rfl⟩ := Int.eq_ofNat_of_zero_le (show (0 : Int) ≤ w by omega)
  obtain ⟨H, rfl⟩ := Int.eq_ofNat_of_zero_le (show (0 : Int) ≤ h by omega)
  have hmul : ((W : Int) * (H : Int)).toNat = W * H := by
    rw [← Int.natCast_mul, Int.toNat_natCast]
  have hgrid : (gridF W H).card = W * H := by
    rw [gridF, Finset.card_product, Int.card_Ico, Int.card_Ico, sub_zero, sub_zero,
      Int.toNat_natCast, Int.toNat_natCast]
  have hW1 : 1 ≤ W := by omega
  have hH1 : 1 ≤ H := by omega
  have hpos : 0 < W * H := Nat.mul_pos (by omega) (by omega)
  have hepi : (px, py) ∈ gridF W H := mem_gridF.mpr ⟨hpx1, hpx2, hpy1, hpy2⟩
  have hspawn : (initArrays px py).cells (px, py) = _SPAWNER := by
    simp [initArrays, updF]
  have hsub : (gridF W H).filter (fun p => (initArrays px py).cells p = _EMPTY)
      ⊆ (gridF W H).erase (px, py) := by
    intro p hp
    rw [Finset.mem_filter] at hp
    rw [Finset.mem_erase]
    refine ⟨?_, hp.1⟩
    intro hcontra
    have hv := hp.2
    rw [hcontra, hspawn] at hv
    exact absurd hv (by decide)
  have hcard := Finset.card_le_card hsub
  rw [Finset.card_erase_of_mem hepi] at hcard
  rw [emptyCount, hmul]
  omega

theorem c9_growth_bound_witness :
    waveLoop 1 1 c35 1 (_PointChecker 1 1) ((1 * 1 : Int)).toNat (initArrays 0 0) [(0, 0)]
      rngZero ≠ .error .fuel :=
  c9_growth_bound 1 1 0 0 c35 1 rngZero (by decide) (by decide) (by decide) (by decide)
    (by decide) (by decide) (by decide)

/-! ### The big-cell placement loop: evaluation lemmas and invariants -/

theorem place_cells_eval (t : _point) (data : _Arrays) (p : _point) :
    (_place_big_cell t data).cells p = if p ∈ blockPts t then _EMPTY else data.cells p := by
  rw [_place_big_cell]
  simp only [updF_eval, blockPts, List.mem_cons, List.not_mem_nil, or_false]
  by_cases h1 : p = t <;> by_cases h2 : p = (t.1 + 1, t.2) <;>
    by_cases h3 : p = (t.1, t.2 + 1) <;> by_cases h4 : p = (t.1 + 1, t.2 + 1) <;>
    simp [h1, h2, h3, h4]

theorem place_hor_eval (t : _point) (data : _Arrays) (q : _point) :
    (_place_big_cell t data).hor_doors q =
      if q = t ∨ q = (t.1, t.2 + 1) then false else data.hor_doors q := by
  rw [_place_big_cell]
  simp only [updF_eval]
  by_cases h1 : q = t <;> by_cases h2 : q = (t.1, t.2 + 1) <;> simp [h1, h2]

theorem place_ver_eval (t : _point) (data : _Arrays) (q : _point) :
    (_place_big_cell t data).ver_doors q =
      if q = t ∨ q = (t.1 + 1, t.2) then false else data.ver_doors q := by
  rw [_place_big_cell]
  simp only [updF_eval]
  by_cases h1 : q = t <;> by_cases h2 : q = (t.1 + 1, t.2) <;> simp [h1, h2]

theorem difference_comm (x y : Int) : _difference x y = _difference y x := by
  rw [_difference, _difference]
  split <;> split <;> omega

theorem max_point_difference_comm (a b : _point) :
    _max_point_difference a b = _max_point_difference b a := by
  rw [_max_point_difference, _max_point_difference, difference_comm a.1 b.1,
    difference_comm a.2 b.2]

theorem covered_updF_true {mask : _point → Bool} {choice p : _point} :
    covered (updF mask choice true) p ↔ covered mask p ∨ p ∈ blockPts choice := by
  constructor
  · rintro ⟨t, hm, hb⟩
    rw [updF_eval] at hm
    by_cases ht : t = choice
    · subst ht
      right
      exact hb
    · rw [if_neg ht] at hm
      left
      exact ⟨t, hm, hb⟩
  · rintro (⟨t, hm, hb⟩ | hb)
    · refine ⟨t, ?_, hb⟩
      rw [updF_eval]
      split
      · rfl
      · exact hm
    · exact ⟨choice, by rw [updF_eval, if_pos rfl], hb⟩

theorem mergeLoop_spec (cands0 : List _point) (dataPass : _Arrays) (fuel : Nat) :
    ∀ (cands : List _point) (mask : _point → Bool) (data : _Arrays) (r : RNG)
      (mask2 : _point → Bool) (data2 : _Arrays) (r2 : RNG),
      mergeLoop fuel cands mask data r = .ok (mask2, data2, r2) →
      cands ⊆ cands0 →
      (∀ t, mask t = true → t ∈ cands0) →
      (∀ t a, mask t = true → a ∈ cands → 1 < _max_point_difference t a) →
      (∀ a b, mask a = true → mask b = true → a ≠ b → 1 < _max_point_difference a b) →
      (∀ p, covered mask p → data.cells p = _EMPTY) →
      (∀ p, ¬ covered mask p → data.cells p = dataPass.cells p) →
      (∀ q, data.hor_doors q = true → dataPass.hor_doors q = true) →
      (∀ q, data.ver_doors q = true → dataPass.ver_doors q = true) →
      ((∀ t, mask2 t = true → t ∈ cands0) ∧
       (∀ a b, mask2 a = true → mask2 b = true → a ≠ b → 1 < _max_point_difference a b) ∧
       (∀ p, covered mask2 p → data2.cells p = _EMPTY) ∧
       (∀ p, ¬ covered mask2 p → data2.cells p = dataPass.cells p) ∧
       (∀ q, data2.hor_doors q = true → dataPass.hor_doors q = true) ∧
       (∀ q, data2.ver_doors q = true → dataPass.ver_doors q = true) ∧
       (∀ t, mask t = true → mask2 t = true)) := by
  induction fuel with
  | zero =>
    intro cands mask data r mask2 data2 r2 hok hsub h1 h3 h4 h5 h6 h7 h8
    rw [mergeLoop] at hok
    split at hok
    · injection hok with hok
      injection hok with e1 hok
      injection hok with e2 e3
      subst e1
      subst e2
      exact ⟨h1, h4, h5, h6, h7, h8, fun t ht => ht⟩
    · cases hok
  | succ fuel ih =>
    intro cands mask data r mask2 data2 r2 hok hsub h1 h3 h4 h5 h6 h7 h8
    rw [mergeLoop] at hok
    split at hok
    · injection hok with hok
      injection hok with e1 hok
      injection hok with e2 e3
      subst e1
      subst e2
      exact ⟨h1, h4, h5, h6, h7, h8, fun t ht => ht⟩
    · rename_i hne
      have hcne : cands ≠ [] := by
        cases cands
        · simp at hne
        · simp
      rcases hch : randChoice cands r with ⟨choice, r1⟩
      rw [hch] at hok
      have hchoice : choice ∈ cands := by
        have := randChoice_fst_mem r hcne
        rw [hch] at this
        exact this
      refine (fun hres => ⟨hres.1, hres.2.1, hres.2.2.1, hres.2.2.2.1, hres.2.2.2.2.1,
          hres.2.2.2.2.2.1, fun t ht => hres.2.2.2.2.2.2 t (by
            rw [updF_eval]
            split
            · rfl
            · exact ht)⟩)
        (ih (cands.filter (fun cell => 1 < _max_point_difference cell choice))
          (updF mask choice true) (_place_big_cell choice data) r1 mask2 data2 r2 hok
          ?_ ?_ ?_ ?_ ?_ ?_ ?_ ?_)
      · exact fun a ha => hsub (List.mem_of_mem_filter ha)
      · intro t ht
        rw [updF_eval] at ht
        by_cases htc : t = choice
        · subst htc
          exact hsub hchoice
        · rw [if_neg htc] at ht
          exact h1 t ht
      · intro t a ht ha
        rw [List.mem_filter] at ha
        rw [updF_eval] at ht
        by_cases htc : t = choice
        · subst htc
          rw [max_point_difference_comm]
          have := ha.2
          simpa using this
        · rw [if_neg htc] at ht
          exact h3 t a ht ha.1
      · intro a b ha hb hab
        rw [updF_eval] at ha hb
        by_cases hac : a = choice <;> by_cases hbc : b = choice
        · exact absurd (hac.trans hbc.symm) hab
        · rw [if_neg hbc] at hb
          rw [hac, max_point_difference_comm]
          exact h3 b choice hb hchoice
        · rw [if_neg hac] at ha
          rw [hbc]
          exact h3 a choice ha hchoice
        · rw [if_neg hac] at ha
          rw [if_neg hbc] at hb
          exact h4 a b ha hb hab
      · intro p hp
        rw [covered_updF_true] at hp
        rw [place_cells_eval]
        rcases hp with hp | hp
        · split
          · rfl
          · exact h5 p hp
        · rw [if_pos hp]
      · intro p hp
        rw [covered_updF_true] at hp
        push_neg at hp
        rw [place_cells_eval, if_neg hp.2]
        exact h6 p hp.1
      · intro q hq
        rw [place_hor_eval] at hq
        split at hq
        · cases hq
        · exact h7 q hq
      · intro q hq
        rw [place_ver_eval] at hq
        split at hq
        · cases hq
        · exact h8 q hq

/-! ### Extracting the finishing state from a successful generation -/

theorem waveLoop_ok_finish (w h : Int) (chance : Rat) (c : Int) (filter_ : _pfilter)
    (fuel : Nat) :
    ∀ (data : _Arrays) (spawners : List _point) (r : RNG) (res : Result),
      waveLoop w h chance c filter_ fuel data spawners r = .ok res →
      ∃ data1 r1, _finish w h data1 filter_ chance r1 = .ok res := by
  induction fuel with
  | zero =>
    intro data spawners r res hok
    rw [waveLoop] at hok
    cases hok
  | succ fuel ih =>
    intro data spawners r res hok
    rw [waveLoop] at hok
    split at hok
    · exact ⟨_, _, hok⟩
    · rcases hpair : (if ((updateVacancies spawners data.cells filter_ []).length : Int) > c
          then randSample (updateVacancies spawners data.cells filter_ []) c.toNat r
          else (updateVacancies spawners data.cells filter_ [], r)) with ⟨heads, r1⟩
      rw [hpair] at hok
      exact ih _ _ _ _ hok

theorem finish_ok_parts {w h : Int} {data : _Arrays} {filter_ : _pfilter} {chance : Rat}
    {r : RNG} {res : Result} (hok : _finish w h data filter_ chance r = .ok res) :
    ∃ chests data1 r1 mask data2 r2,
      deadEndPass (prodPoints w h) data filter_ chance r [] = .ok (chests, data1, r1) ∧
      mergeLoop ((prodPoints (w - 1) (h - 1)).filter (fun cell => _big_cell_filter cell data1)).length
        ((prodPoints (w - 1) (h - 1)).filter (fun cell => _big_cell_filter cell data1))
        (fun _ => false) data1 r1 = .ok (mask, data2, r2) ∧
      res = { cells := fun p => data2.cells p == _BODY,
              big_cells := mask,
              hor_doors := data2.hor_doors,
              ver_doors := data2.ver_doors,
              chests := chests } := by
  rw [_finish] at hok
  rcases hp : deadEndPass (prodPoints w h) data filter_ chance r [] with e | ⟨chests, data1, r1⟩
  · rw [hp] at hok
    cases hok
  · rw [hp] at hok
    dsimp only at hok
    rcases hm : mergeLoop
        ((prodPoints (w - 1) (h - 1)).filter (fun cell => _big_cell_filter cell data1)).length
        ((prodPoints (w - 1) (h - 1)).filter (fun cell => _big_cell_filter cell data1))
        (fun _ => false) data1 r1 with e | ⟨mask, data2, r2⟩
    · rw [hm] at hok
      cases hok
    · rw [hm] at hok
      dsimp only at hok
      injection hok with hres
      exact ⟨chests, data1, r1, mask, data2, r2, rfl, by rw [hm], hres.symm⟩

/-- C7: in every successful generation, two distinct true entries of the
big-cell mask are more than Chebyshev distance 1 apart, so no two merged 2
by 2 blocks share a cell: each placement filters out all remaining
candidates within distance 1 of the accepted corner, and the mask only
receives corners from the candidate list. -/
theorem c7_big_cell_disjoint (w h px py : Int) (chance : Rat) (c : Int) (r : RNG)
    (res : Result) (hok : generate w h px py chance c r = .ok res) (a b : _point)
    (ha : res.big_cells a = true) (hb : res.big_cells b = true) (hab : a ≠ b) :
    1 < _max_point_difference a b := by
  rw [generate] at hok
  split at hok
  · cases hok
  split at hok
  · cases hok
  split at hok
  · cases hok
  split at hok
  · cases hok
  split at hok
  · cases hok
  split at hok
  · cases hok
  obtain ⟨data1, r1, hfin⟩ := waveLoop_ok_finish w h chance c (_PointChecker w h) _ _ _ _ _ hok
  obtain ⟨chests, dataP, rP, mask, data2, r2, hpass, hmerge, hres⟩ := finish_ok_parts hfin
  have props := mergeLoop_spec
    ((prodPoints (w - 1) (h - 1)).filter (fun cell => _big_cell_filter cell dataP)) dataP _
    _ _ _ _ _ _ _ hmerge (fun x hx => hx)
    (fun t ht => by simp at ht)
    (fun t a2 ht _ => by simp at ht)
    (fun a2 b2 ha2 _ _ => by simp at ha2)
    (fun p hp => by
      obtain ⟨t, ht, -⟩ := hp
      simp at ht)
    (fun p _ => rfl)
    (fun q hq => hq)
    (fun q hq => hq)
  subst hres
  exact props.2.1 a b ha hb hab

theorem c7_big_cell_disjoint_witness : 1 < _max_point_difference (0, 0) (0, 2) :=
  c7_big_cell_disjoint 2 5 0 0 c35 2 rngZero (resOrDefault (generate 2 5 0 0 c35 2 rngZero))
    rfl (0, 0) (0, 2) (by decide) (by decide) (by decide)

/-! ### Door-graph reachability over the working arrays -/

/-- Open-door adjacency between two points of the working arrays. -/
def adjD (data : _Arrays) (p q : _point) : Prop :=
  (data.hor_doors p = true ∧ q = (p.1 + 1, p.2)) ∨
  (data.hor_doors q = true ∧ p = (q.1 + 1, q.2)) ∨
  (data.ver_doors p = true ∧ q = (p.1, p.2 + 1)) ∨
  (data.ver_doors q = true ∧ p = (q.1, q.2 + 1))

/-- Reachability along open doors of the working arrays. -/
inductive ReachD (data : _Arrays) : _point → _point → Prop where
  | refl (p : _point) : ReachD data p p
  | tail {p q r : _point} : ReachD data p q → adjD data q r → ReachD data p r

/-- Pointwise order on door arrays: doors only get opened. -/
def doorsLe (d1 d2 : _Arrays) : Prop :=
  (∀ q, d1.hor_doors q = true → d2.hor_doors q = true) ∧
  (∀ q, d1.ver_doors q = true → d2.ver_doors q = true)

theorem doorsLe_refl (d : _Arrays) : doorsLe d d :=
  ⟨fun _ hq => hq, fun _ hq => hq⟩

theorem doorsLe_trans {d1 d2 d3 : _Arrays} (h12 : doorsLe d1 d2) (h23 : doorsLe d2 d3) :
    doorsLe d1 d3 :=
  ⟨fun q hq => h23.1 q (h12.1 q hq), fun q hq => h23.2 q (h12.2 q hq)⟩

theorem adjD_symm {data : _Arrays} {p q : _point} (h : adjD data p q) : adjD data q p := by
  rcases h with h | h | h | h
  · exact Or.inr (Or.inl ⟨h.1, by rw [h.2]⟩)
  · exact Or.inl ⟨h.1, h.2⟩
  · exact Or.inr (Or.inr (Or.inr ⟨h.1, by rw [h.2]⟩))
  · exact Or.inr (Or.inr (Or.inl ⟨h.1, h.2⟩))

theorem adjD_mono {d1 d2 : _Arrays} (hle : doorsLe d1 d2) {p q : _point}
    (h : adjD d1 p q) : adjD d2 p q := by
  rcases h with h | h | h | h
  · exact Or.inl ⟨hle.1 _ h.1, h.2⟩
  · exact Or.inr (Or.inl ⟨hle.1 _ h.1, h.2⟩)
  · exact Or.inr (Or.inr (Or.inl ⟨hle.2 _ h.1, h.2⟩))
  · exact Or.inr (Or.inr (Or.inr ⟨hle.2 _ h.1, h.2⟩))

theorem ReachD_mono {d1 d2 : _Arrays} (hle : doorsLe d1 d2) {p q : _point}
    (h : ReachD d1 p q) : ReachD d2 p q := by
  induction h with
  | refl => exact ReachD.refl _
  | tail _ hadj ih => exact ReachD.tail ih (adjD_mono hle hadj)

theorem ReachD_trans {data : _Arrays} {p q s : _point}
    (h1 : ReachD data p q) (h2 : ReachD data q s) : ReachD data p s := by
  induction h2 with
  | refl => exact h1
  | tail _ hadj ih => exact ReachD.tail ih hadj

theorem ReachD_symm {data : _Arrays} {p q : _point} (h : ReachD data p q) :
    ReachD data q p := by
  induction h with
  | refl => exact ReachD.refl _
  | tail _ hadj ih =>
    exact ReachD_trans (ReachD.tail (ReachD.refl _) (adjD_symm hadj)) ih

/-! ### What _set_door and _wire do to the door arrays -/

theorem set_door_le (p : _point) (dir : Nat) (data : _Arrays) :
    doorsLe data (_set_door p dir true data) := by
  rw [_set_door]
  repeat' split
  all_goals
    constructor <;> intro q hq <;>
      first
        | exact hq
        | (dsimp only
           first
             | exact hq
             | (rw [updF_eval]
                split
                · rfl
                · exact hq))

theorem set_door_hor_char {p : _point} {dir : Nat} {data : _Arrays} {t : _point}
    (h : (_set_door p dir true data).hor_doors t = true) :
    data.hor_doors t = true ∨
      (dir = _LEFT ∧ t = (p.1 - 1, p.2)) ∨ (dir = _RIGHT ∧ t = p) := by
  rw [_set_door] at h
  split at h
  · rename_i hd
    rw [show ({ data with hor_doors := updF data.hor_doors (p.1 - 1, p.2) true } : _Arrays).hor_doors
        = updF data.hor_doors (p.1 - 1, p.2) true from rfl, updF_eval] at h
    split at h
    · exact Or.inr (Or.inl ⟨hd, by assumption⟩)
    · exact Or.inl h
  split at h
  · rename_i hd
    rw [show ({ data with hor_doors := updF data.hor_doors p true } : _Arrays).hor_doors
        = updF data.hor_doors p true from rfl, updF_eval] at h
    split at h
    · exact Or.inr (Or.inr ⟨hd, by assumption⟩)
    · exact Or.inl h
  split at h
  · exact Or.inl h
  split at h
  · exact Or.inl h
  · exact Or.inl h

theorem set_door_ver_char {p : _point} {dir : Nat} {data : _Arrays} {t : _point}
    (h : (_set_door p dir true data).ver_doors t = true) :
    data.ver_doors t = true ∨
      (dir = _UP ∧ t = (p.1, p.2 - 1)) ∨ (dir = _DOWN ∧ t = p) := by
  rw [_set_door] at h
  split at h
  · exact Or.inl h
  split at h
  · exact Or.inl h
  split at h
  · rename_i hd
    rw [show ({ data with ver_doors := updF data.ver_doors (p.1, p.2 - 1) true } : _Arrays).ver_doors
        = updF data.ver_doors (p.1, p.2 - 1) true from rfl, updF_eval] at h
    split at h
    · exact Or.inr (Or.inl ⟨hd, by assumption⟩)
    · exact Or.inl h
  split at h
  · rename_i hd
    rw [show ({ data with ver_doors := updF data.ver_doors p true } : _Arrays).ver_doors
        = updF data.ver_doors p true from rfl, updF_eval] at h
    split at h
    · exact Or.inr (Or.inr ⟨hd, by assumption⟩)
    · exact Or.inl h
  · exact Or.inl h

theorem get_door_mono {d1 d2 : _Arrays} (hle : doorsLe d1 d2) (p : _point) (dir : Nat)
    (h : _get_door p dir d1 = true) : _get_door p dir d2 = true := by
  rw [_get_door] at h ⊢
  by_cases h0 : dir = _LEFT
  · rw [if_pos h0] at h ⊢
    exact hle.1 _ h
  · rw [if_neg h0] at h ⊢
    by_cases h1 : dir = _RIGHT
    · rw [if_pos h1] at h ⊢
      exact hle.1 _ h
    · rw [if_neg h1] at h ⊢
      by_cases h2 : dir = _UP
      · rw [if_pos h2] at h ⊢
        exact hle.2 _ h
      · rw [if_neg h2] at h ⊢
        by_cases h3 : dir = _DOWN
        · rw [if_pos h3] at h ⊢
          exact hle.2 _ h
        · rw [if_neg h3] at h
          cases h

theorem get_set_door_same (p : _point) (dir : Nat) (data : _Arrays)
    (hdir : dir = _LEFT ∨ dir = _RIGHT ∨ dir = _UP ∨ dir = _DOWN) :
    _get_door p dir (_set_door p dir true data) = true := by
  rcases hdir with rfl | rfl | rfl | rfl <;>
    simp [_get_door, _set_door, _LEFT, _RIGHT, _UP, _DOWN, updF_self]

theorem fold_set_door_le (p : _point) (l : List Nat) (d0 : _Arrays) :
    doorsLe d0 (l.foldl (fun d dir => _set_door p dir true d) d0) := by
  induction l generalizing d0 with
  | nil => exact doorsLe_refl d0
  | cons dir rest ih =>
    rw [List.foldl_cons]
    exact doorsLe_trans (set_door_le p dir d0) (ih _)

theorem fold_set_door_hor_char (p : _point) (l : List Nat) :
    ∀ (d0 : _Arrays) (t : _point),
      (l.foldl (fun d dir => _set_door p dir true d) d0).hor_doors t = true →
      d0.hor_doors t = true ∨
        (_LEFT ∈ l ∧ t = (p.1 - 1, p.2)) ∨ (_RIGHT ∈ l ∧ t = p) := by
  induction l with
  | nil => exact fun d0 t h => Or.inl h
  | cons dir rest ih =>
    intro d0 t h
    rw [List.foldl_cons] at h
    rcases ih _ t h with h1 | h1 | h1
    · rcases set_door_hor_char h1 with h2 | ⟨hd, h2⟩ | ⟨hd, h2⟩
      · exact Or.inl h2
      · subst hd
        exact Or.inr (Or.inl ⟨List.mem_cons_self _ _, h2⟩)
      · subst hd
        exact Or.inr (Or.inr ⟨List.mem_cons_self _ _, h2⟩)
    · exact Or.inr (Or.inl ⟨List.mem_cons_of_mem _ h1.1, h1.2⟩)
    · exact Or.inr (Or.inr ⟨List.mem_cons_of_mem _ h1.1, h1.2⟩)

theorem fold_set_door_ver_char (p : _point) (l : List Nat) :
    ∀ (d0 : _Arrays) (t : _point),
      (l.foldl (fun d dir => _set_door p dir true d) d0).ver_doors t = true →
      d0.ver_doors t = true ∨
        (_UP ∈ l ∧ t = (p.1, p.2 - 1)) ∨ (_DOWN ∈ l ∧ t = p) := by
  induction l with
  | nil => exact fun d0 t h => Or.inl h
  | cons dir rest ih =>
    intro d0 t h
    rw [List.foldl_cons] at h
    rcases ih _ t h with h1 | h1 | h1
    · rcases set_door_ver_char h1 with h2 | ⟨hd, h2⟩ | ⟨hd, h2⟩
      · exact Or.inl h2
      · subst hd
        exact Or.inr (Or.inl ⟨List.mem_cons_self _ _, h2⟩)
      · subst hd
        exact Or.inr (Or.inr ⟨List.mem_cons_self _ _, h2⟩)
    · exact Or.inr (Or.inl ⟨List.mem_cons_of_mem _ h1.1, h1.2⟩)
    · exact Or.inr (Or.inr ⟨List.mem_cons_of_mem _ h1.1, h1.2⟩)

theorem fold_set_door_sets (p : _point) (l : List Nat) :
    ∀ (d0 : _Arrays) (dir : Nat), dir ∈ l →
      (dir = _LEFT ∨ dir = _RIGHT ∨ dir = _UP ∨ dir = _DOWN) →
      _get_door p dir (l.foldl (fun d dir2 => _set_door p dir2 true d) d0) = true := by
  induction l with
  | nil => exact fun d0 dir hmem _ => absurd hmem (List.not_mem_nil dir)
  | cons a rest ih =>
    intro d0 dir hmem hdir
    rw [List.foldl_cons]
    rcases List.mem_cons.mp hmem with rfl | hmem2
    · exact get_door_mono (fold_set_door_le p rest _) p dir (get_set_door_same p dir d0 hdir)
    · exact ih _ dir hmem2 hdir

theorem mem_wireDirs {dir : Nat} {p : _point} {data : _Arrays} {filter_ : _pfilter}
    (h : dir ∈ wireDirs p data filter_) :
    (dir = _LEFT ∧ filter_ (p.1 - 1, p.2) = true ∧ data.cells (p.1 - 1, p.2) = _SPAWNER) ∨
    (dir = _RIGHT ∧ filter_ (p.1 + 1, p.2) = true ∧ data.cells (p.1 + 1, p.2) = _SPAWNER) ∨
    (dir = _UP ∧ filter_ (p.1, p.2 - 1) = true ∧ data.cells (p.1, p.2 - 1) = _SPAWNER) ∨
    (dir = _DOWN ∧ filter_ (p.1, p.2 + 1) = true ∧ data.cells (p.1, p.2 + 1) = _SPAWNER) := by
  rw [wireDirs] at h
  simp only [List.mem_map] at h
  obtain ⟨pr, hpr, hd⟩ := h
  rw [List.mem_filter] at hpr
  obtain ⟨hpr1, hsp⟩ := hpr
  rw [_get_nbr_points_n_dirs, List.mem_filter] at hpr1
  obtain ⟨hpr2, hf⟩ := hpr1
  rw [beq_iff_eq] at hsp
  simp only [List.mem_cons, List.not_mem_nil, or_false] at hpr2
  rcases hpr2 with rfl | rfl | rfl | rfl
  · exact Or.inl ⟨hd.symm, hf, hsp⟩
  · exact Or.inr (Or.inl ⟨hd.symm, hf, hsp⟩)
  · exact Or.inr (Or.inr (Or.inl ⟨hd.symm, hf, hsp⟩))
  · exact Or.inr (Or.inr (Or.inr ⟨hd.symm, hf, hsp⟩))

theorem mem_bodyDirs {dir : Nat} {p : _point} {data : _Arrays} {filter_ : _pfilter}
    (h : dir ∈ bodyDirs p data filter_) :
    (dir = _LEFT ∧ data.cells (p.1 - 1, p.2) = _BODY) ∨
    (dir = _RIGHT ∧ data.cells (p.1 + 1, p.2) = _BODY) ∨
    (dir = _UP ∧ data.cells (p.1, p.2 - 1) = _BODY) ∨
    (dir = _DOWN ∧ data.cells (p.1, p.2 + 1) = _BODY) := by
  rw [bodyDirs] at h
  simp only [List.mem_map] at h
  obtain ⟨pr, hpr, hd⟩ := h
  rw [bodyPairs, List.mem_filter] at hpr
  obtain ⟨hpr1, hsp⟩ := hpr
  rw [_get_nbr_points_n_dirs, List.mem_filter] at hpr1
  obtain ⟨hpr2, hf⟩ := hpr1
  rw [beq_iff_eq] at hsp
  simp only [List.mem_cons, List.not_mem_nil, or_false] at hpr2
  rcases hpr2 with rfl | rfl | rfl | rfl
  · exact Or.inl ⟨hd.symm, hsp⟩
  · exact Or.inr (Or.inl ⟨hd.symm, hsp⟩)
  · exact Or.inr (Or.inr (Or.inl ⟨hd.symm, hsp⟩))
  · exact Or.inr (Or.inr (Or.inr ⟨hd.symm, hsp⟩))

theorem wireDirs_mem_of_nbr {p s : _point} {data : _Arrays} {filter_ : _pfilter}
    (hf : filter_ s = true) (hsp : data.cells s = _SPAWNER)
    (hnbr : s = (p.1 - 1, p.2) ∨ s = (p.1 + 1, p.2) ∨ s = (p.1, p.2 - 1) ∨ s = (p.1, p.2 + 1)) :
    ∃ dir ∈ wireDirs p data filter_,
      (dir = _LEFT ∧ s = (p.1 - 1, p.2)) ∨ (dir = _RIGHT ∧ s = (p.1 + 1, p.2)) ∨
      (dir = _UP ∧ s = (p.1, p.2 - 1)) ∨ (dir = _DOWN ∧ s = (p.1, p.2 + 1)) := by
  rcases hnbr with hs | hs | hs | hs
  · refine ⟨_LEFT, ?_, Or.inl ⟨rfl, hs⟩⟩
    rw [wireDirs]
    simp only [List.mem_map]
    refine ⟨((p.1 - 1, p.2), _LEFT), ?_, rfl⟩
    rw [List.mem_filter, _get_nbr_points_n_dirs, List.mem_filter]
    subst hs
    exact ⟨⟨by simp, hf⟩, by rw [beq_iff_eq]; exact hsp⟩
  · refine ⟨_RIGHT, ?_, Or.inr (Or.inl ⟨rfl, hs⟩)⟩
    rw [wireDirs]
    simp only [List.mem_map]
    refine ⟨((p.1 + 1, p.2), _RIGHT), ?_, rfl⟩
    rw [List.mem_filter, _get_nbr_points_n_dirs, List.mem_filter]
    subst hs
    exact ⟨⟨by simp, hf⟩, by rw [beq_iff_eq]; exact hsp⟩
  · refine ⟨_UP, ?_, Or.inr (Or.inr (Or.inl ⟨rfl, hs⟩))⟩
    rw [wireDirs]
    simp only [List.mem_map]
    refine ⟨((p.1, p.2 - 1), _UP), ?_, rfl⟩
    rw [List.mem_filter, _get_nbr_points_n_dirs, List.mem_filter]
    subst hs
    exact ⟨⟨by simp, hf⟩, by rw [beq_iff_eq]; exact hsp⟩
  · refine ⟨_DOWN, ?_, Or.inr (Or.inr (Or.inr ⟨rfl, hs⟩))⟩
    rw [wireDirs]
    simp only [List.mem_map]
    refine ⟨((p.1, p.2 + 1), _DOWN), ?_, rfl⟩
    rw [List.mem_filter, _get_nbr_points_n_dirs, List.mem_filter]
    subst hs
    exact ⟨⟨by simp, hf⟩, by rw [beq_iff_eq]; exact hsp⟩

theorem wireDirs_congr {d1 d2 : _Arrays} (h : d1.cells = d2.cells) (p : _point)
    (filter_ : _pfilter) : wireDirs p d1 filter_ = wireDirs p d2 filter_ := by
  rw [wireDirs, wireDirs, h]

theorem bodyDirs_congr {d1 d2 : _Arrays} (h : d1.cells = d2.cells) (p : _point)
    (filter_ : _pfilter) : bodyDirs p d1 filter_ = bodyDirs p d2 filter_ := by
  rw [bodyDirs, bodyDirs, bodyPairs, bodyPairs, h]

theorem wire_le (p : _point) (data : _Arrays) (filter_ : _pfilter) :
    doorsLe data (_wire p data filter_) :=
  fold_set_door_le p _ data

theorem wire_opens {p : _point} {data : _Arrays} {filter_ : _pfilter} {dir : Nat}
    (hmem : dir ∈ wireDirs p data filter_) :
    _get_door p dir (_wire p data filter_) = true := by
  refine fold_set_door_sets p _ data dir hmem ?_
  rcases mem_wireDirs hmem with ⟨hd, -⟩ | ⟨hd, -⟩ | ⟨hd, -⟩ | ⟨hd, -⟩
  · exact Or.inl hd
  · exact Or.inr (Or.inl hd)
  · exact Or.inr (Or.inr (Or.inl hd))
  · exact Or.inr (Or.inr (Or.inr hd))

theorem wire_hor_char {p : _point} {data : _Arrays} {filter_ : _pfilter} {t : _point}
    (h : (_wire p data filter_).hor_doors t = true) :
    data.hor_doors t = true ∨
      (t = p ∧ data.cells (t.1 + 1, t.2) = _SPAWNER) ∨
      (t = (p.1 - 1, p.2) ∧ (t.1 + 1, t.2) = p ∧ data.cells t = _SPAWNER) := by
  rcases fold_set_door_hor_char p _ data t h with h1 | ⟨hm, ht⟩ | ⟨hm, ht⟩
  · exact Or.inl h1
  · rcases mem_wireDirs hm with ⟨-, -, hsp⟩ | ⟨hd, -⟩ | ⟨hd, -⟩ | ⟨hd, -⟩
    · subst ht
      refine Or.inr (Or.inr ⟨rfl, ?_, hsp⟩)
      obtain ⟨px, py⟩ := p
      simp only [Prod.mk.injEq]
      refine ⟨?_, ?_⟩ <;> first | trivial | omega
    · exact absurd hd (by decide)
    · exact absurd hd (by decide)
    · exact absurd hd (by decide)
  · rcases mem_wireDirs hm with ⟨hd, -⟩ | ⟨-, -, hsp⟩ | ⟨hd, -⟩ | ⟨hd, -⟩
    · exact absurd hd (by decide)
    · subst ht
      exact Or.inr (Or.inl ⟨rfl, hsp⟩)
    · exact absurd hd (by decide)
    · exact absurd hd (by decide)

theorem wire_ver_char {p : _point} {data : _Arrays} {filter_ : _pfilter} {t : _point}
    (h : (_wire p data filter_).ver_doors t = true) :
    data.ver_doors t = true ∨
      (t = p ∧ data.cells (t.1, t.2 + 1) = _SPAWNER) ∨
      (t = (p.1, p.2 - 1) ∧ (t.1, t.2 + 1) = p ∧ data.cells t = _SPAWNER) := by
  rcases fold_set_door_ver_char p _ data t h with h1 | ⟨hm, ht⟩ | ⟨hm, ht⟩
  · exact Or.inl h1
  · rcases mem_wireDirs hm with ⟨hd, -⟩ | ⟨hd, -⟩ | ⟨-, -, hsp⟩ | ⟨hd, -⟩
    · exact absurd hd (by decide)
    · exact absurd hd (by decide)
    · subst ht
      refine Or.inr (Or.inr ⟨rfl, ?_, hsp⟩)
      obtain ⟨px, py⟩ := p
      simp only [Prod.mk.injEq]
      refine ⟨?_, ?_⟩ <;> first | trivial | omega
    · exact absurd hd (by decide)
  · rcases mem_wireDirs hm with ⟨hd, -⟩ | ⟨hd, -⟩ | ⟨hd, -⟩ | ⟨-, -, hsp⟩
    · exact absurd hd (by decide)
    · exact absurd hd (by decide)
    · exact absurd hd (by decide)
    · subst ht
      exact Or.inr (Or.inl ⟨rfl, hsp⟩)

theorem wireAll_le (heads : List _point) (filter_ : _pfilter) :
    ∀ d0 : _Arrays, doorsLe d0 (heads.foldl (fun d hd => _wire hd d filter_) d0) := by
  induction heads with
  | nil => exact fun d0 => doorsLe_refl d0
  | cons hd rest ih =>
    intro d0
    rw [List.foldl_cons]
    exact doorsLe_trans (wire_le hd d0 filter_) (ih _)

theorem wireAll_hor_char (heads : List _point) (filter_ : _pfilter) :
    ∀ (d0 : _Arrays) (t : _point),
      (heads.foldl (fun d hd => _wire hd d filter_) d0).hor_doors t = true →
      d0.hor_doors t = true ∨
        (t ∈ heads ∧ d0.cells (t.1 + 1, t.2) = _SPAWNER) ∨
        ((t.1 + 1, t.2) ∈ heads ∧ d0.cells t = _SPAWNER) := by
  induction heads with
  | nil => exact fun d0 t h => Or.inl h
  | cons hd rest ih =>
    intro d0 t h
    rw [List.foldl_cons] at h
    rcases ih _ t h with h1 | ⟨hm, hc⟩ | ⟨hm, hc⟩
    · rcases wire_hor_char h1 with h2 | ⟨ht, hsp⟩ | ⟨-, ht, hsp⟩
      · exact Or.inl h2
      · exact Or.inr (Or.inl ⟨ht ▸ List.mem_cons_self _ _, hsp⟩)
      · exact Or.inr (Or.inr ⟨ht ▸ List.mem_cons_self _ _, hsp⟩)
    · rw [wire_cells] at hc
      exact Or.inr (Or.inl ⟨List.mem_cons_of_mem _ hm, hc⟩)
    · rw [wire_cells] at hc
      exact Or.inr (Or.inr ⟨List.mem_cons_of_mem _ hm, hc⟩)

theorem wireAll_ver_char (heads : List _point) (filter_ : _pfilter) :
    ∀ (d0 : _Arrays) (t : _point),
      (heads.foldl (fun d hd => _wire hd d filter_) d0).ver_doors t = true →
      d0.ver_doors t = true ∨
        (t ∈ heads ∧ d0.cells (t.1, t.2 + 1) = _SPAWNER) ∨
        ((t.1, t.2 + 1) ∈ heads ∧ d0.cells t = _SPAWNER) := by
  induction heads with
  | nil => exact fun d0 t h => Or.inl h
  | cons hd rest ih =>
    intro d0 t h
    rw [List.foldl_cons] at h
    rcases ih _ t h with h1 | ⟨hm, hc⟩ | ⟨hm, hc⟩
    · rcases wire_ver_char h1 with h2 | ⟨ht, hsp⟩ | ⟨-, ht, hsp⟩
      · exact Or.inl h2
      · exact Or.inr (Or.inl ⟨ht ▸ List.mem_cons_self _ _, hsp⟩)
      · exact Or.inr (Or.inr ⟨ht ▸ List.mem_cons_self _ _, hsp⟩)
    · rw [wire_cells] at hc
      exact Or.inr (Or.inl ⟨List.mem_cons_of_mem _ hm, hc⟩)
    · rw [wire_cells] at hc
      exact Or.inr (Or.inr ⟨List.mem_cons_of_mem _ hm, hc⟩)

theorem wireAll_opens (heads : List _point) (filter_ : _pfilter) :
    ∀ (d0 : _Arrays) (p : _point) (dir : Nat), p ∈ heads →
      dir ∈ wireDirs p d0 filter_ →
      _get_door p dir (heads.foldl (fun d hd => _wire hd d filter_) d0) = true := by
  induction heads with
  | nil => exact fun d0 p dir hp _ => absurd hp (List.not_mem_nil p)
  | cons hd rest ih =>
    intro d0 p dir hp hdir
    rw [List.foldl_cons]
    rcases List.mem_cons.mp hp with rfl | hp2
    · exact get_door_mono (wireAll_le rest filter_ _) p dir (wire_opens hdir)
    · refine ih _ p dir hp2 ?_
      rw [wireDirs_congr (wire_cells hd d0 filter_) p filter_]
      exact hdir

/-! ### The invariant of the wave-growth loop -/

/-- Invariant carried through every iteration of the wave-growth loop: cell
codes are in range, the spawner list is exactly the spawner-coded cells, the
epicenter stays occupied, everything outside the grid is empty, every open
door has two non-empty ends, and every non-empty cell can reach the
epicenter through open doors. -/
structure WaveInv (w h px py : Int) (data : _Arrays) (spawners : List _point) : Prop where
  codes : ∀ p : _point, data.cells p = _EMPTY ∨ data.cells p = _SPAWNER ∨ data.cells p = _BODY
  spawner_mem : ∀ p : _point, data.cells p = _SPAWNER → p ∈ spawners
  mem_spawner : ∀ p ∈ spawners, data.cells p = _SPAWNER
  epi : data.cells (px, py) ≠ _EMPTY
  bounds : ∀ p : _point, ¬ inB w h p → data.cells p = _EMPTY
  doorH : ∀ t : _point, data.hor_doors t = true →
    data.cells t ≠ _EMPTY ∧ data.cells (t.1 + 1, t.2) ≠ _EMPTY
  doorV : ∀ t : _point, data.ver_doors t = true →
    data.cells t ≠ _EMPTY ∧ data.cells (t.1, t.2 + 1) ≠ _EMPTY
  reach : ∀ p : _point, data.cells p ≠ _EMPTY → ReachD data p (px, py)

/-- Properties of the arrays handed to _finish when the loop terminates:
cells are empty or body, the epicenter is a body cell, everything outside
the grid is empty, doors have body ends, and bodies reach the epicenter. -/
structure TermProps (w h px py : Int) (data : _Arrays) : Prop where
  codes : ∀ p : _point, data.cells p = _EMPTY ∨ data.cells p = _BODY
  epi : data.cells (px, py) = _BODY
  bounds : ∀ p : _point, ¬ inB w h p → data.cells p = _EMPTY
  doorH : ∀ t : _point, data.hor_doors t = true →
    data.cells t = _BODY ∧ data.cells (t.1 + 1, t.2) = _BODY
  doorV : ∀ t : _point, data.ver_doors t = true →
    data.cells t = _BODY ∧ data.cells (t.1, t.2 + 1) = _BODY
  reach : ∀ p : _point, data.cells p = _BODY → ReachD data p (px, py)

theorem waveInv_init (w h px py : Int) (hx : 0 ≤ px ∧ px < w) (hy : 0 ≤ py ∧ py < h) :
    WaveInv w h px py (initArrays px py) [(px, py)] := by
  have hev : ∀ p : _point, (initArrays px py).cells p =
      if p = (px, py) then _SPAWNER else _EMPTY := fun p => rfl
  constructor
  · intro p
    rw [hev]
    split
    · exact Or.inr (Or.inl rfl)
    · exact Or.inl rfl
  · intro p hp
    rw [hev] at hp
    split at hp
    · rename_i he
      simp [he]
    · exact absurd hp (by decide)
  · intro p hp
    simp only [List.mem_singleton] at hp
    rw [hev, if_pos hp]
  · rw [hev, if_pos rfl]
    decide
  · intro p hnb
    rw [hev]
    split
    · rename_i he
      subst he
      exact absurd ⟨hx.1, hx.2, hy.1, hy.2⟩ hnb
    · rfl
  · intro t ht
    cases ht
  · intro t ht
    cases ht
  · intro p hp
    rw [hev] at hp
    split at hp
    · rename_i he
      rw [he]
      exact ReachD.refl _
    · exact absurd rfl hp

theorem waveInv_step (w h px py : Int) (data d1 d' : _Arrays)
    (spawners heads : List _point)
    (inv : WaveInv w h px py data spawners)
    (hsub : heads ⊆ updateVacancies spawners data.cells (_PointChecker w h) [])
    (hd1 : d1 = heads.foldl (fun d hd => _wire hd d (_PointChecker w h)) data)
    (hcells : ∀ p : _point, d'.cells p = if p ∈ heads then _SPAWNER
      else if p ∈ spawners then _BODY else data.cells p)
    (hhor : d'.hor_doors = d1.hor_doors) (hver : d'.ver_doors = d1.ver_doors) :
    WaveInv w h px py d' heads := by
  have hheads : ∀ q ∈ heads, ∃ s ∈ spawners,
      q ∈ _get_nbr_points s (_PointChecker w h) ∧ data.cells q = _EMPTY := by
    intro q hq
    have := (mem_updateVacancies spawners data.cells (_PointChecker w h) [] q).mp (hsub hq)
    simpa using this
  have hheadB : ∀ q ∈ heads, _PointChecker w h q = true := by
    intro q hq
    obtain ⟨s, -, hn, -⟩ := hheads q hq
    exact (mem_get_nbr_points.mp hn).2
  have hspawnB : ∀ s ∈ spawners, inB w h s := by
    intro s hs
    by_contra hnb
    exact absurd ((inv.bounds s hnb).symm.trans (inv.mem_spawner s hs)) (by decide)
  have hc1 : d1.cells = data.cells := by
    rw [hd1, wireAll_cells]
  have hle : doorsLe data d1 := by
    rw [hd1]
    exact wireAll_le heads _ data
  have hled : doorsLe data d' :=
    ⟨fun q hq => by rw [hhor]; exact hle.1 q hq, fun q hq => by rw [hver]; exact hle.2 q hq⟩
  have hmono : ∀ q : _point, data.cells q ≠ _EMPTY → d'.cells q ≠ _EMPTY := by
    intro q hq
    rw [hcells]
    split
    · decide
    · split
      · decide
      · exact hq
  have hhorC : ∀ t : _point, d1.hor_doors t = true → data.hor_doors t = true ∨
      (t ∈ heads ∧ data.cells (t.1 + 1, t.2) = _SPAWNER) ∨
      ((t.1 + 1, t.2) ∈ heads ∧ data.cells t = _SPAWNER) := by
    subst hd1
    exact wireAll_hor_char heads _ data
  have hverC : ∀ t : _point, d1.ver_doors t = true → data.ver_doors t = true ∨
      (t ∈ heads ∧ data.cells (t.1, t.2 + 1) = _SPAWNER) ∨
      ((t.1, t.2 + 1) ∈ heads ∧ data.cells t = _SPAWNER) := by
    subst hd1
    exact wireAll_ver_char heads _ data
  have hheadCell : ∀ q ∈ heads, d'.cells q ≠ _EMPTY := by
    intro q hq
    rw [hcells, if_pos hq]
    decide
  constructor
  · intro p
    rw [hcells]
    split
    · exact Or.inr (Or.inl rfl)
    · split
      · exact Or.inr (Or.inr rfl)
      · exact inv.codes p
  · intro p hp
    rw [hcells] at hp
    split at hp
    · rename_i hm
      exact hm
    · split at hp
      · exact absurd hp (by decide)
      · rename_i h1 h2
        exact absurd (inv.spawner_mem p hp) h2
  · intro p hp
    rw [hcells, if_pos hp]
  · rw [hcells]
    split
    · decide
    · split
      · decide
      · exact inv.epi
  · intro p hnb
    rw [hcells]
    split
    · rename_i hm
      exact absurd (of_decide_eq_true (hheadB p hm)) hnb
    · split
      · rename_i h1 hm
        exact absurd (hspawnB p hm) hnb
      · exact inv.bounds p hnb
  · intro t ht
    rw [hhor] at ht
    rcases hhorC t ht with h1 | ⟨hm, hc⟩ | ⟨hm, hc⟩
    · have := inv.doorH t h1
      exact ⟨hmono t this.1, hmono _ this.2⟩
    · exact ⟨hheadCell t hm, hmono _ (by rw [hc]; decide)⟩
    · exact ⟨hmono t (by rw [hc]; decide), hheadCell _ hm⟩
  · intro t ht
    rw [hver] at ht
    rcases hverC t ht with h1 | ⟨hm, hc⟩ | ⟨hm, hc⟩
    · have := inv.doorV t h1
      exact ⟨hmono t this.1, hmono _ this.2⟩
    · exact ⟨hheadCell t hm, hmono _ (by rw [hc]; decide)⟩
    · exact ⟨hmono t (by rw [hc]; decide), hheadCell _ hm⟩
  · intro p hp
    have hreachMono : ∀ q : _point, data.cells q ≠ _EMPTY → ReachD d' q (px, py) :=
      fun q hq => ReachD_mono hled (inv.reach q hq)
    by_cases hpe : data.cells p = _EMPTY
    · have hm : p ∈ heads := by
        by_contra hnm
        rw [hcells, if_neg hnm] at hp
        split at hp
        · rename_i hsp2
          exact absurd (inv.mem_spawner p hsp2) (by rw [hpe]; decide)
        · exact hp hpe
      obtain ⟨s, hsmem, hnbr, -⟩ := hheads p hm
      have hsnbr : s = (p.1 - 1, p.2) ∨ s = (p.1 + 1, p.2) ∨
          s = (p.1, p.2 - 1) ∨ s = (p.1, p.2 + 1) := by
        rcases (mem_get_nbr_points.mp hnbr).1 with hp1 | hp1 | hp1 | hp1 <;>
          · obtain ⟨sx, sy⟩ := s
            obtain ⟨qx, qy⟩ := p
            simp only [Prod.mk.injEq] at hp1
            simp only [Prod.mk.injEq]
            omega
      have hsf : _PointChecker w h s = true :=
        (PointChecker_eq_true_iff w h s).mpr (hspawnB s hsmem)
      have hssp : data.cells s = _SPAWNER := inv.mem_spawner s hsmem
      obtain ⟨dir, hdmem, hdisj⟩ := wireDirs_mem_of_nbr hsf hssp hsnbr
      have hopen : _get_door p dir d1 = true := by
        rw [hd1]
        exact wireAll_opens heads _ data p dir hm hdmem
      have hadj : adjD d' p s := by
        rcases hdisj with ⟨hd, hs⟩ | ⟨hd, hs⟩ | ⟨hd, hs⟩ | ⟨hd, hs⟩ <;> subst hd
        · rw [_get_door, if_pos rfl] at hopen
          refine Or.inr (Or.inl ⟨?_, ?_⟩)
          · rw [hhor, hs]
            exact hopen
          · rw [hs]
            obtain ⟨qx, qy⟩ := p
            simp only [Prod.mk.injEq]
            refine ⟨?_, ?_⟩ <;> first | trivial | omega
        · rw [_get_door] at hopen
          rw [if_neg (by decide), if_pos rfl] at hopen
          refine Or.inl ⟨?_, hs⟩
          rw [hhor]
          exact hopen
        · rw [_get_door] at hopen
          rw [if_neg (by decide), if_neg (by decide), if_pos rfl] at hopen
          refine Or.inr (Or.inr (Or.inr ⟨?_, ?_⟩))
          · rw [hver, hs]
            exact hopen
          · rw [hs]
            obtain ⟨qx, qy⟩ := p
            simp only [Prod.mk.injEq]
            refine ⟨?_, ?_⟩ <;> first | trivial | omega
        · rw [_get_door] at hopen
          rw [if_neg (by decide), if_neg (by decide), if_neg (by decide), if_pos rfl] at hopen
          refine Or.inr (Or.inr (Or.inl ⟨?_, hs⟩))
          rw [hver]
          exact hopen
      exact ReachD_trans (ReachD.tail (ReachD.refl p) hadj)
        (hreachMono s (by rw [hssp]; decide))
    · exact hreachMono p hpe

theorem waveInv_terminal (w h px py : Int) (data : _Arrays) (spawners : List _point)
    (inv : WaveInv w h px py data spawners) (d' : _Arrays)
    (hcells : ∀ p : _point, d'.cells p = setBody data.cells spawners p)
    (hhor : d'.hor_doors = data.hor_doors) (hver : d'.ver_doors = data.ver_doors) :
    TermProps w h px py d' := by
  have hev : ∀ p : _point, d'.cells p =
      if p ∈ spawners then _BODY else data.cells p := by
    intro p
    rw [hcells, setBody_eval]
  have hne : ∀ p : _point, data.cells p ≠ _EMPTY → d'.cells p = _BODY := by
    intro p hp
    rw [hev]
    split
    · rfl
    · rename_i hnm
      rcases inv.codes p with hc | hc | hc
      · exact absurd hc hp
      · exact absurd (inv.spawner_mem p hc) hnm
      · exact hc
  have hbody : ∀ p : _point, d'.cells p = _BODY → data.cells p ≠ _EMPTY := by
    intro p hp
    rw [hev] at hp
    split at hp
    · rename_i hm
      rw [inv.mem_spawner p hm]
      decide
    · rw [hp]
      decide
  constructor
  · intro p
    by_cases hp : data.cells p = _EMPTY
    · rw [hev]
      split
      · exact Or.inr rfl
      · exact Or.inl hp
    · exact Or.inr (hne p hp)
  · exact hne _ inv.epi
  · intro p hnb
    rw [hev]
    split
    · rename_i hm
      exact absurd ((inv.bounds p hnb).symm.trans (inv.mem_spawner p hm)) (by decide)
    · exact inv.bounds p hnb
  · intro t ht
    rw [hhor] at ht
    have := inv.doorH t ht
    exact ⟨hne t this.1, hne _ this.2⟩
  · intro t ht
    rw [hver] at ht
    have := inv.doorV t ht
    exact ⟨hne t this.1, hne _ this.2⟩
  · intro p hp
    have hled : doorsLe data d' :=
      ⟨fun q hq => by rw [hhor]; exact hq, fun q hq => by rw [hver]; exact hq⟩
    exact ReachD_mono hled (inv.reach p (hbody p hp))

theorem waveLoop_ok_term (w h px py : Int) (chance : Rat) (c : Int) (fuel : Nat) :
    ∀ (data : _Arrays) (spawners : List _point) (r : RNG) (res : Result),
      WaveInv w h px py data spawners →
      waveLoop w h chance c (_PointChecker w h) fuel data spawners r = .ok res →
      ∃ (dataT : _Arrays) (rT : RNG),
        TermProps w h px py dataT ∧
        _finish w h dataT (_PointChecker w h) chance rT = .ok res := by
  induction fuel with
  | zero =>
    intro data spawners r res _ hok
    rw [waveLoop] at hok
    cases hok
  | succ fuel ih =>
    intro data spawners r res inv hok
    rw [waveLoop] at hok
    split at hok
    · refine ⟨{ data with cells := setBody data.cells spawners }, r, ?_, hok⟩
      exact waveInv_terminal w h px py data spawners inv _ (fun p => rfl) rfl rfl
    · rcases hpair : (if ((updateVacancies spawners data.cells (_PointChecker w h) []).length : Int) > c
          then randSample (updateVacancies spawners data.cells (_PointChecker w h) []) c.toNat r
          else (updateVacancies spawners data.cells (_PointChecker w h) [], r)) with ⟨heads, r1⟩
      rw [hpair] at hok
      have hsub : heads ⊆ updateVacancies spawners data.cells (_PointChecker w h) [] := by
        split at hpair
        · have := randSample_fst_subset c.toNat
            (updateVacancies spawners data.cells (_PointChecker w h) []) r
          rw [hpair] at this
          exact this
        · injection hpair with h1 h2
          rw [← h1]
          exact List.Subset.refl _
      refine ih _ _ _ _ ?_ hok
      refine waveInv_step w h px py data _ _ spawners heads inv hsub rfl ?_ rfl rfl
      intro p
      show setSpawner (setBody
        ((heads.foldl (fun d hd => _wire hd d (_PointChecker w h)) data).cells) spawners) heads p = _
      rw [setSpawner_eval, setBody_eval, wireAll_cells]

/-! ### What the dead-end pass does to the arrays -/

/-- A direction whose target neighbor of p is a body cell; the shape of the
membership condition of bodyDirs. -/
def goodDir (p : _point) (cells : _point → Nat) (dir : Nat) : Prop :=
  (dir = _LEFT ∧ cells (p.1 - 1, p.2) = _BODY) ∨
  (dir = _RIGHT ∧ cells (p.1 + 1, p.2) = _BODY) ∨
  (dir = _UP ∧ cells (p.1, p.2 - 1) = _BODY) ∨
  (dir = _DOWN ∧ cells (p.1, p.2 + 1) = _BODY)

theorem set_door_good_hor {p : _point} {dir : Nat} {cells : _point → Nat} {data : _Arrays}
    {t : _point} (hp : cells p = _BODY) (hdir : goodDir p cells dir)
    (h : (_set_door p dir true data).hor_doors t = true) :
    data.hor_doors t = true ∨ (cells t = _BODY ∧ cells (t.1 + 1, t.2) = _BODY) := by
  rcases set_door_hor_char h with h1 | ⟨hd, ht⟩ | ⟨hd, ht⟩
  · exact Or.inl h1
  · subst hd
    subst ht
    rcases hdir with ⟨-, hc⟩ | ⟨hd2, -⟩ | ⟨hd2, -⟩ | ⟨hd2, -⟩
    · refine Or.inr ⟨hc, ?_⟩
      have hpt : ((((p.1 - 1, p.2) : _point)).1 + 1, (((p.1 - 1, p.2) : _point)).2) = p := by
        obtain ⟨a, b2⟩ := p
        simp only [Prod.mk.injEq]
        refine ⟨?_, ?_⟩ <;> first | trivial | omega
      rw [hpt]
      exact hp
    · exact absurd hd2 (by decide)
    · exact absurd hd2 (by decide)
    · exact absurd hd2 (by decide)
  · subst hd
    subst ht
    rcases hdir with ⟨hd2, -⟩ | ⟨-, hc⟩ | ⟨hd2, -⟩ | ⟨hd2, -⟩
    · exact absurd hd2 (by decide)
    · exact Or.inr ⟨hp, hc⟩
    · exact absurd hd2 (by decide)
    · exact absurd hd2 (by decide)

theorem set_door_good_ver {p : _point} {dir : Nat} {cells : _point → Nat} {data : _Arrays}
    {t : _point} (hp : cells p = _BODY) (hdir : goodDir p cells dir)
    (h : (_set_door p dir true data).ver_doors t = true) :
    data.ver_doors t = true ∨ (cells t = _BODY ∧ cells (t.1, t.2 + 1) = _BODY) := by
  rcases set_door_ver_char h with h1 | ⟨hd, ht⟩ | ⟨hd, ht⟩
  · exact Or.inl h1
  · subst hd
    subst ht
    rcases hdir with ⟨hd2, -⟩ | ⟨hd2, -⟩ | ⟨-, hc⟩ | ⟨hd2, -⟩
    · exact absurd hd2 (by decide)
    · exact absurd hd2 (by decide)
    · refine Or.inr ⟨hc, ?_⟩
      have hpt : ((((p.1, p.2 - 1) : _point)).1, (((p.1, p.2 - 1) : _point)).2 + 1) = p := by
        obtain ⟨a, b2⟩ := p
        simp only [Prod.mk.injEq]
        refine ⟨?_, ?_⟩ <;> first | trivial | omega
      rw [hpt]
      exact hp
    · exact absurd hd2 (by decide)
  · subst hd
    subst ht
    rcases hdir with ⟨hd2, -⟩ | ⟨hd2, -⟩ | ⟨hd2, -⟩ | ⟨-, hc⟩
    · exact absurd hd2 (by decide)
    · exact absurd hd2 (by decide)
    · exact absurd hd2 (by decide)
    · exact Or.inr ⟨hp, hc⟩

theorem extraWires_good (p : _point) (chance : Rat) (cells : _point → Nat)
    (hp : cells p = _BODY) :
    ∀ (fuel : Nat) (dirs : List Nat) (data : _Arrays) (r : RNG) (data2 : _Arrays) (r2 : RNG),
      extraWires fuel dirs p chance data r = (data2, r2) →
      (∀ dir ∈ dirs, goodDir p cells dir) →
      data2.cells = data.cells ∧
      doorsLe data data2 ∧
      (∀ t : _point, data2.hor_doors t = true →
        data.hor_doors t = true ∨ (cells t = _BODY ∧ cells (t.1 + 1, t.2) = _BODY)) ∧
      (∀ t : _point, data2.ver_doors t = true →
        data.ver_doors t = true ∨ (cells t = _BODY ∧ cells (t.1, t.2 + 1) = _BODY)) := by
  intro fuel
  induction fuel with
  | zero =>
    intro dirs data r data2 r2 hw hdirs
    rw [extraWires] at hw
    injection hw with h1 h2
    subst h1
    exact ⟨rfl, doorsLe_refl _, fun t ht => Or.inl ht, fun t ht => Or.inl ht⟩
  | succ fuel ih =>
    intro dirs data r data2 r2 hw hdirs
    rw [extraWires] at hw
    split at hw
    · rename_i hgt
      rcases hqr : randFloat r with ⟨q, r1⟩
      rw [hqr] at hw
      dsimp only at hw
      split at hw
      · rcases hch : randChoice dirs r1 with ⟨choice, rc⟩
        rw [hch] at hw
        dsimp only at hw
        have hchoice : choice ∈ dirs := by
          have := randChoice_fst_mem r1 (List.ne_nil_of_length_pos hgt)
          rw [hch] at this
          exact this
        obtain ⟨hcell, hle, hhc, hvc⟩ :=
          ih (dirs.erase choice) (_set_door p choice true data) rc data2 r2 hw
            (fun dir hd => hdirs dir (List.erase_subset _ _ hd))
        refine ⟨hcell.trans (set_door_cells p choice true data), 
          doorsLe_trans (set_door_le p choice data) hle, ?_, ?_⟩
        · intro t ht
          rcases hhc t ht with h1 | h1
          · exact set_door_good_hor hp (hdirs choice hchoice) h1
          · exact Or.inr h1
        · intro t ht
          rcases hvc t ht with h1 | h1
          · exact set_door_good_ver hp (hdirs choice hchoice) h1
          · exact Or.inr h1
      · injection hw with h1 h2
        subst h1
        exact ⟨rfl, doorsLe_refl _, fun t ht => Or.inl ht, fun t ht => Or.inl ht⟩
    · injection hw with h1 h2
      subst h1
      exact ⟨rfl, doorsLe_refl _, fun t ht => Or.inl ht, fun t ht => Or.inl ht⟩

theorem process_spec (p : _point) (data : _Arrays) (filter_ : _pfilter) (chance : Rat)
    (r : RNG) (b : Option Bool) (data1 : _Arrays) (r1 : RNG)
    (hok : _process_as_if_dead_end p data filter_ chance r = .ok (b, data1, r1)) :
    data1.cells = data.cells ∧
    doorsLe data data1 ∧
    (∀ t : _point, data1.hor_doors t = true →
      data.hor_doors t = true ∨ (data.cells t = _BODY ∧ data.cells (t.1 + 1, t.2) = _BODY)) ∧
    (∀ t : _point, data1.ver_doors t = true →
      data.ver_doors t = true ∨ (data.cells t = _BODY ∧ data.cells (t.1, t.2 + 1) = _BODY)) ∧
    (b = some true ↔ data.cells p = _BODY ∧ (bodyDirs p data filter_).length = 1) := by
  rw [_process_as_if_dead_end] at hok
  split at hok
  · rename_i hbody
    rw [beq_iff_eq] at hbody
    dsimp only at hok
    split at hok
    · rename_i hlen
      rw [beq_iff_eq] at hlen
      injection hok with hok
      injection hok with e1 hok
      injection hok with e2 e3
      subst e1
      subst e2
      exact ⟨rfl, doorsLe_refl _, fun t ht => Or.inl ht, fun t ht => Or.inl ht,
        ⟨fun _ => ⟨hbody, hlen⟩, fun _ => rfl⟩⟩
    · rename_i hlen
      split at hok
      · injection hok with hok
        injection hok with e1 hok
        injection hok with e2 e3
        subst e1
        subst e2
        refine ⟨rfl, doorsLe_refl _, fun t ht => Or.inl ht, fun t ht => Or.inl ht, ?_⟩
        constructor
        · intro hcontra
          cases hcontra
        · rintro ⟨-, h2⟩
          exact absurd h2 (by simpa using hlen)
      · cases hok
      · rename_i first hfd
        split at hok
        · cases hok
        · rename_i dirs1 hrem
          rw [pyRemove] at hrem
          split at hrem
          · rename_i hfmem
            injection hrem with hrem
            rcases hch : randChoice dirs1 r with ⟨choice, rc⟩
            rw [hch] at hok
            dsimp only at hok
            rcases hew : extraWires (dirs1.erase choice).length (dirs1.erase choice) p chance
                (_set_door p choice true data) rc with ⟨dataW, rW⟩
            rw [hew] at hok
            dsimp only at hok
            injection hok with hok
            injection hok with e1 hok
            injection hok with e2 e3
            subst e1
            subst e2
            have hd1sub : dirs1 ⊆ bodyDirs p data filter_ := by
              rw [← hrem]
              exact List.erase_subset _ _
            have hgood : ∀ dir ∈ dirs1.erase choice, goodDir p data.cells dir :=
              fun dir hd => mem_bodyDirs (hd1sub (List.erase_subset _ _ hd))
            have hchoice : choice ∈ dirs1 := by
              have hne : dirs1 ≠ [] := by
                have hlen1 : dirs1.length = (bodyDirs p data filter_).length - 1 := by
                  rw [← hrem]
                  exact List.length_erase_of_mem hfmem
                have hge1 : 1 ≤ (bodyDirs p data filter_).length :=
                  List.length_pos.mpr (List.ne_nil_of_mem hfmem)
                have hne1 : (bodyDirs p data filter_).length ≠ 1 := by simpa using hlen
                intro hnil
                rw [hnil] at hlen1
                simp at hlen1
                omega
              have := randChoice_fst_mem r hne
              rw [hch] at this
              exact this
            obtain ⟨hcell, hle, hhc, hvc⟩ :=
              extraWires_good p chance data.cells hbody (dirs1.erase choice).length
                (dirs1.erase choice) (_set_door p choice true data) rc dataW rW hew hgood
            refine ⟨hcell.trans (set_door_cells p choice true data),
              doorsLe_trans (set_door_le p choice data) hle, ?_, ?_, ?_⟩
            · intro t ht
              rcases hhc t ht with h1 | h1
              · exact set_door_good_hor hbody
                  (mem_bodyDirs (hd1sub hchoice)) h1
              · exact Or.inr h1
            · intro t ht
              rcases hvc t ht with h1 | h1
              · exact set_door_good_ver hbody
                  (mem_bodyDirs (hd1sub hchoice)) h1
              · exact Or.inr h1
            · constructor
              · intro hcontra
                cases hcontra
              · rintro ⟨-, h2⟩
                exact absurd h2 (by simpa using hlen)
          · cases hrem
  · rename_i hbody
    injection hok with hok
    injection hok with e1 hok
    injection hok with e2 e3
    subst e1
    subst e2
    refine ⟨rfl, doorsLe_refl _, fun t ht => Or.inl ht, fun t ht => Or.inl ht, ?_⟩
    constructor
    · intro hcontra
      cases hcontra
    · rintro ⟨h1, -⟩
      exact absurd h1 (by simpa using hbody)

theorem deadEndPass_spec (filter_ : _pfilter) (chance : Rat) :
    ∀ (pts : List _point) (data : _Arrays) (r : RNG) (chests chests2 : List _point)
      (data2 : _Arrays) (r2 : RNG),
      deadEndPass pts data filter_ chance r chests = .ok (chests2, data2, r2) →
      data2.cells = data.cells ∧
      doorsLe data data2 ∧
      (∀ t : _point, data2.hor_doors t = true →
        data.hor_doors t = true ∨ (data.cells t = _BODY ∧ data.cells (t.1 + 1, t.2) = _BODY)) ∧
      (∀ t : _point, data2.ver_doors t = true →
        data.ver_doors t = true ∨ (data.cells t = _BODY ∧ data.cells (t.1, t.2 + 1) = _BODY)) ∧
      (∀ q ∈ chests2, q ∈ chests ∨
        (data.cells q = _BODY ∧ (bodyDirs q data filter_).length = 1)) := by
  intro pts
  induction pts with
  | nil =>
    intro data r chests chests2 data2 r2 hok
    rw [deadEndPass] at hok
    injection hok with hok
    injection hok with e1 hok
    injection hok with e2 e3
    subst e1
    subst e2
    exact ⟨rfl, doorsLe_refl _, fun t ht => Or.inl ht, fun t ht => Or.inl ht,
      fun q hq => Or.inl hq⟩
  | cons cell rest ih =>
    intro data r chests chests2 data2 r2 hok
    rw [deadEndPass] at hok
    rcases hpr : _process_as_if_dead_end cell data filter_ chance r with e | ⟨b, d1, r1⟩
    · rw [hpr] at hok
      cases hok
    · rw [hpr] at hok
      dsimp only at hok
      obtain ⟨hcellP, hleP, hhP, hvP, hbP⟩ :=
        process_spec cell data filter_ chance r b d1 r1 hpr
      obtain ⟨hcellR, hleR, hhR, hvR, hcR⟩ := ih d1 r1 _ chests2 data2 r2 hok
      refine ⟨hcellR.trans hcellP, doorsLe_trans hleP hleR, ?_, ?_, ?_⟩
      · intro t ht
        rcases hhR t ht with h1 | h1
        · exact hhP t h1
        · rw [hcellP] at h1
          exact Or.inr h1
      · intro t ht
        rcases hvR t ht with h1 | h1
        · exact hvP t h1
        · rw [hcellP] at h1
          exact Or.inr h1
      · intro q hq
        rcases hcR q hq with h1 | h1
        · split at h1
          · rename_i hb
            simp only [List.concat_eq_append, List.mem_append, List.mem_singleton] at h1
            rcases h1 with h2 | h2
            · exact Or.inl h2
            · subst h2
              exact Or.inr (hbP.mp hb)
          · exact Or.inl h1
        · rw [hcellP, bodyDirs_congr hcellP q filter_] at h1
          exact Or.inr h1

theorem deadEndPass_lone_body (filter_ : _pfilter) (chance : Rat) (p0 : _point) :
    ∀ (pts : List _point) (data : _Arrays) (r : RNG) (chests : List _point),
      p0 ∈ pts →
      data.cells p0 = _BODY →
      (∀ q : _point, data.cells q = _BODY → q = p0) →
      deadEndPass pts data filter_ chance r chests =
        .error (.valueError "list.remove(x): x not in list") := by
  intro pts
  induction pts with
  | nil =>
    intro data r chests hmem
    cases hmem
  | cons cell rest ih =>
    intro data r chests hmem hbody honly
    by_cases hc : cell = p0
    · subst hc
      have hdirs : bodyDirs cell data filter_ = [] := by
        rw [List.eq_nil_iff_forall_not_mem]
        intro dir hdir
        rcases mem_bodyDirs hdir with ⟨-, hb⟩ | ⟨-, hb⟩ | ⟨-, hb⟩ | ⟨-, hb⟩ <;>
          · have := honly _ hb
            obtain ⟨a, b2⟩ := cell
            simp only [Prod.mk.injEq] at this
            omega
      have hproc : _process_as_if_dead_end cell data filter_ chance r =
          .error (.valueError "list.remove(x): x not in list") := by
        rw [_process_as_if_dead_end]
        split
        · rw [hdirs]
          rfl
        · rename_i hne
          exact absurd (by rw [beq_iff_eq]; exact hbody) hne
      rw [deadEndPass, hproc]
    · have hcb : ¬(data.cells cell == _BODY) = true := by
        rw [beq_iff_eq]
        intro hb
        exact hc (honly cell hb)
      have hproc : _process_as_if_dead_end cell data filter_ chance r = .ok (none, data, r) := by
        rw [_process_as_if_dead_end, if_neg hcb]
      rw [deadEndPass, hproc]
      have hmem2 : p0 ∈ rest := by
        rcases List.mem_cons.mp hmem with h1 | h1
        · exact absurd h1.symm hc
        · exact h1
      show deadEndPass rest data filter_ chance r
        (if (none : Option Bool) = some true then chests.concat cell else chests) = _
      rw [if_neg (by simp)]
      exact ih data r chests hmem2 hbody honly

/-! ### Additional merge-loop facts -/

theorem mergeLoop_mask_mono (fuel : Nat) :
    ∀ (cands : List _point) (mask : _point → Bool) (data : _Arrays) (r : RNG)
      (mask2 : _point → Bool) (data2 : _Arrays) (r2 : RNG),
      mergeLoop fuel cands mask data r = .ok (mask2, data2, r2) →
      ∀ t : _point, mask t = true → mask2 t = true := by
  induction fuel with
  | zero =>
    intro cands mask data r mask2 data2 r2 hok t ht
    rw [mergeLoop] at hok
    split at hok
    · injection hok with hok
      injection hok with e1 hok
      subst e1
      exact ht
    · cases hok
  | succ fuel ih =>
    intro cands mask data r mask2 data2 r2 hok t ht
    rw [mergeLoop] at hok
    split at hok
    · injection hok with hok
      injection hok with e1 hok
      subst e1
      exact ht
    · rcases hch : randChoice cands r with ⟨choice, r1⟩
      rw [hch] at hok
      refine ih _ _ _ _ _ _ _ hok t ?_
      rw [updF_eval]
      split
      · rfl
      · exact ht

theorem mergeLoop_no_merge (fuel : Nat) (cands : List _point) (data : _Arrays) (r : RNG)
    (mask2 : _point → Bool) (data2 : _Arrays) (r2 : RNG)
    (hok : mergeLoop fuel cands (fun _ => false) data r = .ok (mask2, data2, r2))
    (hfalse : ∀ t : _point, mask2 t = false) : data2 = data := by
  cases fuel with
  | zero =>
    rw [mergeLoop] at hok
    split at hok
    · injection hok with hok
      injection hok with e1 hok
      injection hok with e2 e3
      exact e2.symm
    · cases hok
  | succ fuel =>
    rw [mergeLoop] at hok
    split at hok
    · injection hok with hok
      injection hok with e1 hok
      injection hok with e2 e3
      exact e2.symm
    · rcases hch : randChoice cands r with ⟨choice, r1⟩
      rw [hch] at hok
      have := mergeLoop_mask_mono fuel _ _ _ _ _ _ _ hok choice
        (updF_self (fun _ => false) choice true)
      rw [hfalse choice] at this
      cases this

/-! ### The bridge from a successful generation to the finishing arrays -/

/-- Facts linking the result of a successful generation to the arrays dataP
produced by the dead-end pass: open doors have body ends, the occupied or
big-cell-covered points of the result are exactly the body cells of dataP,
result doors come from dataP doors, chests are body cells with exactly one
body neighbor, bodies reach the epicenter, a second body cell exists, and a
merge-free run returns dataP unchanged. -/
structure GenBridge (w h px py : Int) (filter_ : _pfilter) (res : Result)
    (dataP : _Arrays) : Prop where
  endsH : ∀ t : _point, dataP.hor_doors t = true →
    dataP.cells t = _BODY ∧ dataP.cells (t.1 + 1, t.2) = _BODY
  endsV : ∀ t : _point, dataP.ver_doors t = true →
    dataP.cells t = _BODY ∧ dataP.cells (t.1, t.2 + 1) = _BODY
  occ : ∀ q : _point, occOrCov res q ↔ dataP.cells q = _BODY
  resH : ∀ t : _point, res.hor_doors t = true → dataP.hor_doors t = true
  resV : ∀ t : _point, res.ver_doors t = true → dataP.ver_doors t = true
  chest : ∀ q ∈ res.chests, dataP.cells q = _BODY ∧ (bodyDirs q dataP filter_).length = 1
  reach : ∀ q : _point, dataP.cells q = _BODY → ReachD dataP q (px, py)
  epiB : dataP.cells (px, py) = _BODY
  second : ∃ q : _point, dataP.cells q = _BODY ∧ q ≠ (px, py)
  bounds : ∀ p : _point, ¬ inB w h p → dataP.cells p = _EMPTY
  noMerge : (∀ t : _point, res.big_cells t = false) →
    res.cells = (fun p : _point => dataP.cells p == _BODY) ∧
    res.hor_doors = dataP.hor_doors ∧ res.ver_doors = dataP.ver_doors

theorem generate_ok_bridge (w h px py : Int) (chance : Rat) (c : Int) (r : RNG)
    (res : Result) (hok : generate w h px py chance c r = .ok res) :
    ∃ dataP : _Arrays, GenBridge w h px py (_PointChecker w h) res dataP := by
  rw [generate] at hok
  split at hok
  · cases hok
  split at hok
  · cases hok
  split at hok
  · cases hok
  rename_i hpx'
  split at hok
  · cases hok
  rename_i hpy'
  split at hok
  · cases hok
  split at hok
  · cases hok
  have hpx : 0 ≤ px ∧ px < w := not_not.mp hpx'
  have hpy : 0 ≤ py ∧ py < h := not_not.mp hpy'
  obtain ⟨dataT, rT, term, hfin⟩ :=
    waveLoop_ok_term w h px py chance c ((w * h).toNat + 2) (initArrays px py) [(px, py)] r res
      (waveInv_init w h px py hpx hpy) hok
  obtain ⟨chests, dataP, rP, mask, data2, r2, hpass, hmerge, hres⟩ := finish_ok_parts hfin
  obtain ⟨hcellP, hleP, hhP, hvP, hcP⟩ :=
    deadEndPass_spec (_PointChecker w h) chance (prodPoints w h) dataT rT [] chests dataP rP hpass
  have hendsH : ∀ t : _point, dataP.hor_doors t = true →
      dataP.cells t = _BODY ∧ dataP.cells (t.1 + 1, t.2) = _BODY := by
    intro t ht
    rw [hcellP]
    rcases hhP t ht with h1 | h1
    · exact term.doorH t h1
    · exact h1
  have hendsV : ∀ t : _point, dataP.ver_doors t = true →
      dataP.cells t = _BODY ∧ dataP.cells (t.1, t.2 + 1) = _BODY := by
    intro t ht
    rw [hcellP]
    rcases hvP t ht with h1 | h1
    · exact term.doorV t h1
    · exact h1
  have props := mergeLoop_spec
    ((prodPoints (w - 1) (h - 1)).filter (fun cell => _big_cell_filter cell dataP)) dataP _
    _ _ _ _ _ _ _ hmerge (fun x hx => hx)
    (fun t ht => by simp at ht)
    (fun t a2 ht _ => by simp at ht)
    (fun a2 b2 ha2 _ _ => by simp at ha2)
    (fun p hp => by
      obtain ⟨t, ht, -⟩ := hp
      simp at ht)
    (fun p _ => rfl)
    (fun q hq => hq)
    (fun q hq => hq)
  obtain ⟨hmaskMem, -, hcovE, hncov, hd2h, hd2v, -⟩ := props
  have hfilter : ∀ t : _point, mask t = true → _big_cell_filter t dataP = true :=
    fun t ht => (List.mem_filter.mp (hmaskMem t ht)).2
  have hblock : ∀ t q2 : _point, mask t = true → q2 ∈ blockPts t →
      dataP.cells q2 = _BODY := by
    intro t q2 ht hq2
    have hf := hfilter t ht
    rw [_big_cell_filter] at hf
    simp only [Bool.and_eq_true] at hf
    obtain ⟨⟨⟨h1, h2⟩, h3⟩, h4⟩ := hf
    simp only [blockPts, List.mem_cons, List.not_mem_nil, or_false] at hq2
    rcases hq2 with h5 | rfl | rfl | rfl
    · rw [h5]
      exact (hendsH t h1).1
    · exact (hendsH t h1).2
    · exact (hendsV t h2).2
    · exact (hendsV (t.1 + 1, t.2) h4).2
  have hsecondT : ∃ q2 : _point, dataT.cells q2 = _BODY ∧ q2 ≠ (px, py) := by
    by_contra hcon
    push_neg at hcon
    have hcrash := deadEndPass_lone_body (_PointChecker w h) chance (px, py) (prodPoints w h)
      dataT rT [] (mem_prodPoints.mpr ⟨hpx.1, hpx.2, hpy.1, hpy.2⟩) term.epi hcon
    rw [hpass] at hcrash
    cases hcrash
  have hsecond : ∃ q2 : _point, dataP.cells q2 = _BODY ∧ q2 ≠ (px, py) := by
    obtain ⟨q2, hq2, hne⟩ := hsecondT
    refine ⟨q2, ?_, hne⟩
    rw [hcellP]
    exact hq2
  subst hres
  refine ⟨dataP, ?_⟩
  constructor
  · exact hendsH
  · exact hendsV
  · intro q2
    constructor
    · intro hoc
      rcases hoc with hcell | hcov
      · have hcell2 : (data2.cells q2 == _BODY) = true := hcell
        rw [beq_iff_eq] at hcell2
        by_cases hcv : covered mask q2
        · rw [hcovE q2 hcv] at hcell2
          exact absurd hcell2 (by decide)
        · rw [hncov q2 hcv] at hcell2
          exact hcell2
      · obtain ⟨t, hm, hb⟩ := hcov
        exact hblock t q2 hm hb
    · intro hq2
      by_cases hcv : covered mask q2
      · exact Or.inr hcv
      · refine Or.inl ?_
        show (data2.cells q2 == _BODY) = true
        rw [hncov q2 hcv, hq2]
        rfl
  · exact fun t ht => hd2h t ht
  · exact fun t ht => hd2v t ht
  · intro q2 hq2
    rcases hcP q2 hq2 with h1 | h1
    · exact absurd h1 (List.not_mem_nil q2)
    · constructor
      · rw [hcellP]
        exact h1.1
      · rw [bodyDirs_congr hcellP q2 (_PointChecker w h)]
        exact h1.2
  · intro q2 hq2
    rw [hcellP] at hq2
    exact ReachD_mono hleP (term.reach q2 hq2)
  · rw [hcellP]
    exact term.epi
  · exact hsecond
  · intro p hp
    rw [hcellP]
    exact term.bounds p hp
  · intro hfalse
    have hd2 : data2 = dataP := mergeLoop_no_merge _ _ dataP rP mask data2 r2 hmerge hfalse
    refine ⟨?_, ?_, ?_⟩
    · show (fun p : _point => data2.cells p == _BODY) = fun p : _point => dataP.cells p == _BODY
      rw [hd2]
    · show data2.hor_doors = dataP.hor_doors
      rw [hd2]
    · show data2.ver_doors = dataP.ver_doors
      rw [hd2]

/-! ### Reachability in the result and the unique chest neighbor -/

theorem adjRes_symm {res : Result} {p q : _point} (h : adjRes res p q) : adjRes res q p := by
  obtain ⟨hp, hq, hd⟩ := h
  refine ⟨hq, hp, ?_⟩
  rcases hd with h | h | h | h
  · exact Or.inr (Or.inl ⟨h.1, h.2⟩)
  · exact Or.inl ⟨h.1, h.2⟩
  · exact Or.inr (Or.inr (Or.inr ⟨h.1, h.2⟩))
  · exact Or.inr (Or.inr (Or.inl ⟨h.1, h.2⟩))

theorem ReachRes_trans {res : Result} {p q s : _point}
    (h1 : ReachRes res p q) (h2 : ReachRes res q s) : ReachRes res p s := by
  induction h2 with
  | refl => exact h1
  | tail _ hadj ih => exact ReachRes.tail ih hadj

theorem ReachRes_symm {res : Result} {p q : _point} (h : ReachRes res p q) :
    ReachRes res q p := by
  induction h with
  | refl => exact ReachRes.refl _
  | tail _ hadj ih =>
    exact ReachRes_trans (ReachRes.tail (ReachRes.refl _) (adjRes_symm hadj)) ih

theorem ReachRes_first_edge {res : Result} {p q : _point} (h : ReachRes res p q)
    (hne : p ≠ q) : ∃ s : _point, adjRes res p s := by
  revert hne
  induction h with
  | refl =>
    intro hne
    exact absurd rfl hne
  | tail hr hadj ih =>
    rename_i q2 r2
    intro hne
    by_cases hpq : p = q2
    · subst hpq
      exact ⟨r2, hadj⟩
    · exact ih hpq

theorem ReachD_to_ReachRes {res : Result} {dataP : _Arrays} {p q : _point}
    (hH : ∀ t : _point, dataP.hor_doors t = true →
      dataP.cells t = _BODY ∧ dataP.cells (t.1 + 1, t.2) = _BODY)
    (hV : ∀ t : _point, dataP.ver_doors t = true →
      dataP.cells t = _BODY ∧ dataP.cells (t.1, t.2 + 1) = _BODY)
    (hcells : res.cells = (fun p2 : _point => dataP.cells p2 == _BODY))
    (hhor : res.hor_doors = dataP.hor_doors) (hver : res.ver_doors = dataP.ver_doors)
    (h : ReachD dataP p q) : ReachRes res p q := by
  have hocc : ∀ a : _point, dataP.cells a = _BODY → res.cells a = true := by
    intro a ha
    rw [hcells]
    show (dataP.cells a == _BODY) = true
    rw [ha]
    rfl
  have hadj : ∀ a b : _point, adjD dataP a b → adjRes res a b := by
    intro a b hab
    rcases hab with ⟨hd, hb⟩ | ⟨hd, hb⟩ | ⟨hd, hb⟩ | ⟨hd, hb⟩
    · refine ⟨hocc a (hH a hd).1, hocc b ?_, Or.inl ⟨?_, hb⟩⟩
      · rw [hb]
        exact (hH a hd).2
      · rw [hhor]
        exact hd
    · refine ⟨hocc a ?_, hocc b (hH b hd).1, Or.inr (Or.inl ⟨?_, hb⟩)⟩
      · rw [hb]
        exact (hH b hd).2
      · rw [hhor]
        exact hd
    · refine ⟨hocc a (hV a hd).1, hocc b ?_, Or.inr (Or.inr (Or.inl ⟨?_, hb⟩))⟩
      · rw [hb]
        exact (hV a hd).2
      · rw [hver]
        exact hd
    · refine ⟨hocc a ?_, hocc b (hV b hd).1, Or.inr (Or.inr (Or.inr ⟨?_, hb⟩))⟩
      · rw [hb]
        exact (hV b hd).2
      · rw [hver]
        exact hd
  induction h with
  | refl => exact ReachRes.refl _
  | tail _ ha ih => exact ReachRes.tail ih (hadj _ _ ha)

theorem bodyDirs_length_one {w h : Int} {p : _point} {data : _Arrays}
    (hbounds : ∀ q : _point, ¬ inB w h q → data.cells q = _EMPTY)
    (hlen : (bodyDirs p data (_PointChecker w h)).length = 1) :
    ∃ q ∈ nbrPts p, data.cells q = _BODY ∧
      ∀ q2 ∈ nbrPts p, data.cells q2 = _BODY → q2 = q := by
  have hfeq : bodyDirs p data (_PointChecker w h) =
      ([((p.1 - 1, p.2), _LEFT), ((p.1 + 1, p.2), _RIGHT),
        ((p.1, p.2 - 1), _UP), ((p.1, p.2 + 1), _DOWN)].filter
          (fun pr : _point × Nat => data.cells pr.1 == _BODY)).map
        (fun pr : _point × Nat => pr.2) := by
    rw [bodyDirs, bodyPairs, _get_nbr_points_n_dirs, List.filter_filter]
    congr 1
    refine List.filter_congr ?_
    intro pr hpr
    by_cases hB : data.cells pr.1 = _BODY
    · have hf : _PointChecker w h pr.1 = true := by
        rw [PointChecker_eq_true_iff]
        by_contra hnb
        rw [hbounds pr.1 hnb] at hB
        exact absurd hB (by decide)
      have hb2 : (data.cells pr.1 == _BODY) = true := by
        rw [beq_iff_eq]
        exact hB
      simp [hf, hb2]
    · have hb2 : (data.cells pr.1 == _BODY) = false := by
        rw [beq_eq_false_iff_ne]
        exact hB
      simp [hb2]
  rw [hfeq, List.length_map] at hlen
  rcases h1 : (data.cells (p.1 - 1, p.2) == _BODY) with - | - <;>
    rcases h2 : (data.cells (p.1 + 1, p.2) == _BODY) with - | - <;>
      rcases h3 : (data.cells (p.1, p.2 - 1) == _BODY) with - | - <;>
        rcases h4 : (data.cells (p.1, p.2 + 1) == _BODY) with - | - <;>
          simp only [List.filter_cons, List.filter_nil, h1, h2, h3, h4] at hlen <;>
            simp at hlen
  · refine ⟨(p.1, p.2 + 1), by simp [nbrPts], ?_, ?_⟩
    · rw [← beq_iff_eq]
      exact h4
    · intro q2 hq2 hB2
      have hb : (data.cells q2 == _BODY) = true := by
        rw [beq_iff_eq]
        exact hB2
      simp only [nbrPts, List.mem_cons, List.not_mem_nil, or_false] at hq2
      rcases hq2 with rfl | rfl | rfl | rfl
      · rw [h1] at hb
        cases hb
      · rw [h2] at hb
        cases hb
      · rw [h3] at hb
        cases hb
      · rfl
  · refine ⟨(p.1, p.2 - 1), by simp [nbrPts], ?_, ?_⟩
    · rw [← beq_iff_eq]
      exact h3
    · intro q2 hq2 hB2
      have hb : (data.cells q2 == _BODY) = true := by
        rw [beq_iff_eq]
        exact hB2
      simp only [nbrPts, List.mem_cons, List.not_mem_nil, or_false] at hq2
      rcases hq2 with rfl | rfl | rfl | rfl
      · rw [h1] at hb
        cases hb
      · rw [h2] at hb
        cases hb
      · rfl
      · rw [h4] at hb
        cases hb
  · refine ⟨(p.1 + 1, p.2), by simp [nbrPts], ?_, ?_⟩
    · rw [← beq_iff_eq]
      exact h2
    · intro q2 hq2 hB2
      have hb : (data.cells q2 == _BODY) = true := by
        rw [beq_iff_eq]
        exact hB2
      simp only [nbrPts, List.mem_cons, List.not_mem_nil, or_false] at hq2
      rcases hq2 with rfl | rfl | rfl | rfl
      · rw [h1] at hb
        cases hb
      · rfl
      · rw [h3] at hb
        cases hb
      · rw [h4] at hb
        cases hb
  · refine ⟨(p.1 - 1, p.2), by simp [nbrPts], ?_, ?_⟩
    · rw [← beq_iff_eq]
      exact h1
    · intro q2 hq2 hB2
      have hb : (data.cells q2 == _BODY) = true := by
        rw [beq_iff_eq]
        exact hB2
      simp only [nbrPts, List.mem_cons, List.not_mem_nil, or_false] at hq2
      rcases hq2 with rfl | rfl | rfl | rfl
      · rfl
      · rw [h2] at hb
        cases hb
      · rw [h3] at hb
        cases hb
      · rw [h4] at hb
        cases hb

/-! ### Claims C3, C4 and C5 in amended form -/

/-- C3 amended: in every successful generation, every open door connects two
points that are each either occupied in the final mask or absorbed into a
placed 2 by 2 big room.  The original claim, that both sides are occupied,
is refuted by c3_counterexample: placing a big room empties its four member
cells but leaves their outward doors open. -/
theorem c3_door_cover (w h px py : Int) (chance : Rat) (c : Int) (r : RNG) (res : Result)
    (hok : generate w h px py chance c r = .ok res) :
    (∀ t : _point, res.hor_doors t = true →
      occOrCov res t ∧ occOrCov res (t.1 + 1, t.2)) ∧
    (∀ t : _point, res.ver_doors t = true →
      occOrCov res t ∧ occOrCov res (t.1, t.2 + 1)) := by
  obtain ⟨dataP, br⟩ := generate_ok_bridge w h px py chance c r res hok
  constructor
  · intro t ht
    have he := br.endsH t (br.resH t ht)
    exact ⟨(br.occ t).mpr he.1, (br.occ _).mpr he.2⟩
  · intro t ht
    have he := br.endsV t (br.resV t ht)
    exact ⟨(br.occ t).mpr he.1, (br.occ _).mpr he.2⟩

theorem c3_door_cover_witness :
    (∀ t : _point, (resOrDefault (generate 3 1 0 0 c35 3 rngZero)).hor_doors t = true →
      occOrCov (resOrDefault (generate 3 1 0 0 c35 3 rngZero)) t ∧
      occOrCov (resOrDefault (generate 3 1 0 0 c35 3 rngZero)) (t.1 + 1, t.2)) ∧
    (∀ t : _point, (resOrDefault (generate 3 1 0 0 c35 3 rngZero)).ver_doors t = true →
      occOrCov (resOrDefault (generate 3 1 0 0 c35 3 rngZero)) t ∧
      occOrCov (resOrDefault (generate 3 1 0 0 c35 3 rngZero)) (t.1, t.2 + 1)) :=
  c3_door_cover 3 1 0 0 c35 3 rngZero (resOrDefault (generate 3 1 0 0 c35 3 rngZero)) (by rfl)

/-- C4 amended: in every successful generation in which no big room was
merged (the big-cell mask is everywhere false), the occupied cells form a
single connected component under open-door adjacency and every occupied
cell has an occupied door-adjacent neighbor.  The original unconditional
claim is refuted by c4_counterexample: a merged big room can leave an
occupied cell with no open door to any occupied neighbor. -/
theorem c4_connectivity_no_merge (w h px py : Int) (chance : Rat) (c : Int) (r : RNG)
    (res : Result) (hok : generate w h px py chance c r = .ok res)
    (hnm : ∀ t : _point, res.big_cells t = false) :
    (∀ p q : _point, res.cells p = true → res.cells q = true → ReachRes res p q) ∧
    (∀ p : _point, res.cells p = true → ∃ q : _point, adjRes res p q) := by
  obtain ⟨dataP, br⟩ := generate_ok_bridge w h px py chance c r res hok
  obtain ⟨hcells, hhor, hver⟩ := br.noMerge hnm
  have hoccB : ∀ p2 : _point, res.cells p2 = true → dataP.cells p2 = _BODY := by
    intro p2 hp2
    rw [hcells] at hp2
    have hp3 : (dataP.cells p2 == _BODY) = true := hp2
    rw [beq_iff_eq] at hp3
    exact hp3
  have hBocc : ∀ p2 : _point, dataP.cells p2 = _BODY → res.cells p2 = true := by
    intro p2 hp2
    rw [hcells]
    show (dataP.cells p2 == _BODY) = true
    rw [hp2]
    rfl
  have hreach : ∀ p2 : _point, res.cells p2 = true → ReachRes res p2 (px, py) :=
    fun p2 hp2 =>
      ReachD_to_ReachRes br.endsH br.endsV hcells hhor hver (br.reach p2 (hoccB p2 hp2))
  have hconn : ∀ p2 q2 : _point, res.cells p2 = true → res.cells q2 = true →
      ReachRes res p2 q2 :=
    fun p2 q2 hp2 hq2 => ReachRes_trans (hreach p2 hp2) (ReachRes_symm (hreach q2 hq2))
  refine ⟨hconn, ?_⟩
  intro p2 hp2
  obtain ⟨q2, hq2B, hq2ne⟩ := br.second
  by_cases hpe : p2 = (px, py)
  · refine ReachRes_first_edge (hconn p2 q2 hp2 (hBocc q2 hq2B)) ?_
    intro he
    refine hq2ne ?_
    rw [← he]
    exact hpe
  · exact ReachRes_first_edge (hconn p2 (px, py) hp2 (hBocc _ br.epiB)) hpe

theorem c4_connectivity_no_merge_witness :
    (∀ p q : _point, (resOrDefault (generate 3 1 0 0 c35 2 rngZero)).cells p = true →
      (resOrDefault (generate 3 1 0 0 c35 2 rngZero)).cells q = true →
      ReachRes (resOrDefault (generate 3 1 0 0 c35 2 rngZero)) p q) ∧
    (∀ p : _point, (resOrDefault (generate 3 1 0 0 c35 2 rngZero)).cells p = true →
      ∃ q : _point, adjRes (resOrDefault (generate 3 1 0 0 c35 2 rngZero)) p q) :=
  c4_connectivity_no_merge 3 1 0 0 c35 2 rngZero
    (resOrDefault (generate 3 1 0 0 c35 2 rngZero)) (by rfl) (fun t => rfl)

/-- C5 amended: in every successful generation, every chest point has
exactly one structurally adjacent neighbor that is occupied or absorbed
into a placed big room.  The original claim, that the occupied neighbor
count is exactly one, is refuted by c5_counterexample: the merge pass can
absorb the unique occupied neighbor of a chest into an emptied big room. -/
theorem c5_chest_neighbor (w h px py : Int) (chance : Rat) (c : Int) (r : RNG)
    (res : Result) (hok : generate w h px py chance c r = .ok res) :
    ∀ p ∈ res.chests, ∃ q ∈ nbrPts p, occOrCov res q ∧
      ∀ q2 ∈ nbrPts p, occOrCov res q2 → q2 = q := by
  obtain ⟨dataP, br⟩ := generate_ok_bridge w h px py chance c r res hok
  intro p hp
  obtain ⟨-, hlen⟩ := br.chest p hp
  obtain ⟨q, hqn, hqB, huniq⟩ := bodyDirs_length_one br.bounds hlen
  exact ⟨q, hqn, (br.occ q).mpr hqB,
    fun q2 hq2 ho2 => huniq q2 hq2 ((br.occ q2).mp ho2)⟩

theorem c5_chest_neighbor_witness :
    ∃ q ∈ nbrPts ((0 : Int), (0 : Int)),
      occOrCov (resOrDefault (generate 1 3 0 0 c35 2 rngZero)) q ∧
        ∀ q2 ∈ nbrPts ((0 : Int), (0 : Int)),
          occOrCov (resOrDefault (generate 1 3 0 0 c35 2 rngZero)) q2 → q2 = q :=
  c5_chest_neighbor 1 3 0 0 c35 2 rngZero
    (resOrDefault (generate 1 3 0 0 c35 2 rngZero)) (by rfl)
    ((0 : Int), (0 : Int)) (by decide)
